import Mathlib

/-!
Knox: expiry tracking for fleeting notes.

A shallow embedding of the Go sources of knox, and the properties proved of it.

Modelling conventions.

* A Go `string` is modelled as the list of its Unicode code points
  (`List Char`), i.e. as valid UTF-8 text.  Every literal the program
  searches for (`"---"`, the digits, the unit letters) is ASCII, so the
  byte offsets used by `strings.HasPrefix`, `strings.Index` and the slice
  expressions of the source fall on code point boundaries and the byte
  level operations coincide with the code point level ones below.
* `time.Time` is an integer count of nanoseconds since the epoch and
  `time.Duration` is a signed 64-bit count of nanoseconds (an `Int`
  wrapped explicitly by `wrap64`).
* `time.Now()` reads an explicit clock; two calls are two reads.
* The `notes` table is the list of its rows; the `PRIMARY KEY` constraint
  is the predicate `Table.WF`.  Timestamps in the table are compared as
  instants.  The store operations themselves add no error of their own
  and return `nil` (`none`); where `main` branches on the error of
  `DeleteNote`, the call is `DeleteNoteOn`, on a storage engine that may
  fail the statement.
* The calls `os.ReadDir`, `os.ReadFile`, `os.Stat`, `os.WriteFile`,
  `filepath.Join`, `yaml.Unmarshal` and the formatting helpers are
  parameters; `os.Remove` acts on the explicit `FileSystem`.
-/

namespace Knox

/-! ## Go runtime and standard library -/

/-- A Go string, as the list of its code points. -/
abbrev GoString := List Char

/-- Errors built by the program (and by the collaborators it calls). -/
inductive Error where
  /-- Built by `fmt.Errorf("invalid duration format: %s", s)` -/
  | invalidFormat (s : GoString)
  /-- Built by `fmt.Errorf("unknown duration unit: %s", unit)` -/
  | unknownUnit (unit : GoString)
  /-- Built by `fmt.Errorf("invalid expiry_date format: %w", err)` -/
  | invalidExpiry (cause : Error)
  /-- Built by `fmt.Errorf("failed to read inbox: %w", err)` -/
  | readInbox (cause : Error)
  /-- an error reported by the operating system for a path -/
  | os (path : GoString)
  /-- an error reported by the YAML decoder -/
  | yaml (input : GoString)
  /-- an error reported by the storage engine for a statement on a path -/
  | engine (path : GoString)
  deriving DecidableEq, Repr

deriving instance DecidableEq for Except

/-- Wrap an integer to the range of `int64` (two's complement). -/
def wrap64 (x : Int) : Int := (x + 2 ^ 63) % 2 ^ 64 - 2 ^ 63

/-- Multiplication of two `int64` values, as Go computes it. -/
def mul64 (a b : Int) : Int := wrap64 (a * b)

/-- Largest `int64`. -/
def maxInt64 : Int := 2 ^ 63 - 1

/-- Smallest `int64`. -/
def minInt64 : Int := -(2 ^ 63)

/-- Go `time.Nanosecond` -/
def Nanosecond : Int := 1
/-- Go `time.Microsecond` -/
def Microsecond : Int := 1000 * Nanosecond
/-- Go `time.Millisecond` -/
def Millisecond : Int := 1000 * Microsecond
/-- Go `time.Second` -/
def Second : Int := 1000 * Millisecond
/-- Go `time.Minute` -/
def Minute : Int := 60 * Second
/-- Go `time.Hour` -/
def Hour : Int := 60 * Minute

/-- Go `unicode.IsSpace`: the code points with the White_Space property. -/
def isSpace (c : Char) : Bool :=
  let n := c.toNat
  (9 ≤ n && n ≤ 13) || n = 32 || n = 0x85 || n = 0xA0 || n = 0x1680 ||
  (0x2000 ≤ n && n ≤ 0x200A) || n = 0x2028 || n = 0x2029 || n = 0x202F ||
  n = 0x205F || n = 0x3000

/-- Go `strings.TrimSpace`: the string without its leading and trailing
white space. -/
def TrimSpace (s : GoString) : GoString :=
  ((s.dropWhile isSpace).reverse.dropWhile isSpace).reverse

/-- Go `strings.HasPrefix` -/
def HasPrefix (s pre : GoString) : Bool := pre.isPrefixOf s

/-- Go `strings.HasSuffix` -/
def HasSuffix (s suf : GoString) : Bool := suf.isSuffixOf s

/-- Search for `sep` in `s`, where `s` starts at offset `i` of the string
searched. -/
def indexFrom (sep : GoString) : GoString → Nat → Int
  | [], i => if sep.isEmpty then (i : Int) else -1
  | c :: cs, i => if sep.isPrefixOf (c :: cs) then (i : Int) else indexFrom sep cs (i + 1)

/-- Go `strings.Index`: offset of the first occurrence of `sep` in `s`, or
`-1`. -/
def Index (s sep : GoString) : Int := indexFrom sep s 0

/-- The slice expression `s[lo:]`. -/
def sliceFrom (s : GoString) (lo : Int) : GoString := s.drop lo.toNat

/-- The slice expression `s[:hi]`. -/
def sliceTo (s : GoString) (hi : Int) : GoString := s.take hi.toNat

/-- Value of a run of decimal digits, most significant first. -/
def decimalValue (ds : GoString) : Nat :=
  ds.foldl (fun acc c => 10 * acc + (c.toNat - 48)) 0

/-- Go `strconv.Atoi` on a 64-bit platform: an optional sign followed by
decimal digits.  A syntax error yields `0`; a value out of range yields
the nearest `int64`; both come with an error (here `true`). -/
def Atoi (s : GoString) : Int × Bool :=
  let neg := s.head? = some '-'
  let ds := if s.head? = some '-' ∨ s.head? = some '+' then s.tail else s
  if ds.isEmpty || !ds.all Char.isDigit then (0, true)
  else
    let v : Int := decimalValue ds
    if neg then (if v > 2 ^ 63 then (minInt64, true) else (-v, false))
    else (if v > maxInt64 then (maxInt64, true) else (v, false))

/-- The unit letters of the character class `[dhms]`. -/
def unitClass : List Char := ['d', 'h', 'm', 's']

/-- Go `regexp.MustCompile("^(\\d+)([dhms])$").FindStringSubmatch`: when the
whole of `s` is one or more ASCII digits followed by one letter of
`[dhms]`, the match and its two groups; otherwise `nil`. -/
def FindStringSubmatch (s : GoString) : List GoString :=
  match s.getLast? with
  | none => []
  | some u =>
    let ds := s.dropLast
    if !ds.isEmpty && ds.all Char.isDigit && unitClass.contains u then [s, ds, [u]]
    else []

/-! ## scanner.go -/

/-- Source `parseDuration` of `scanner.go`. -/
def parseDuration (s : GoString) : Except Error Int :=
  let s := TrimSpace s
  let ms := FindStringSubmatch s
  if ms.length ≠ 3 then .error (.invalidFormat s)
  else
    let num := (Atoi (ms.getD 1 [])).1
    let unit := ms.getD 2 []
    if unit = ['d'] then .ok (mul64 (mul64 num 24) Hour)
    else if unit = ['h'] then .ok (mul64 num Hour)
    else if unit = ['m'] then .ok (mul64 num Minute)
    else if unit = ['s'] then .ok (mul64 num Second)
    else .error (.unknownUnit unit)

/-- Source `extractFrontmatter` of `scanner.go`: header, body and error. -/
def extractFrontmatter (content : GoString) : GoString × GoString × Option Error :=
  if !HasPrefix content "---".toList then ([], content, none)
  else
    let rest := sliceFrom content 3
    let idx := Index rest "---".toList
    if idx = -1 then ([], content, none)
    else
      let frontmatter := sliceTo rest idx
      let body := sliceFrom rest (idx + 3)
      (TrimSpace frontmatter, TrimSpace body, none)

/-- Go `time.Time`: an instant, in nanoseconds since the epoch. -/
abbrev Time := Int

/-- Go `Time.Add` -/
def Time.Add (t : Time) (d : Int) : Time := t + d

/-- The clock behind `time.Now()`: `readings k` is what call number `k`
returns, and `reads` counts the calls made so far. -/
structure Clock where
  /-- the instant each successive call reports -/
  readings : Nat → Time
  /-- number of calls made so far -/
  reads : Nat

/-- Go `time.Now()`: the next reading, and the clock after the call. -/
def Clock.Now (c : Clock) : Time × Clock :=
  (c.readings c.reads, { c with reads := c.reads + 1 })

/-- What `yaml.Unmarshal` stores under a key of `map[string]interface{}`:
a string, or a value of another dynamic type. -/
inductive YamlValue where
  | str (s : GoString)
  | other
  deriving DecidableEq, Repr

/-- The decoded `map[string]interface{}`; an absent key yields `none`. -/
abbrev YamlMap := GoString → Option YamlValue

/-- Go `yaml.Unmarshal` into a `map[string]interface{}`, an external
collaborator of the scanner. -/
abbrev YamlDecoder := GoString → Except Error YamlMap

/-- Go `os.ReadFile`, an external collaborator of the scanner. -/
abbrev FileReader := GoString → Except Error GoString

/-! ## database.go -/

/-- Source `Note` of `database.go`. -/
structure Note where
  Path : GoString
  ExpiryDatetime : Time
  TrackedAt : Time
  deriving DecidableEq, Repr

/-- The rows of the table `notes`, in row order. -/
abbrev Table := List Note

/-- The `PRIMARY KEY` constraint on `note_path`: no two rows share a path. -/
def Table.WF (t : Table) : Prop := (t.map Note.Path).Nodup

instance (t : Table) : Decidable (Table.WF t) := by
  unfold Table.WF
  infer_instance

/-- The table right after `createTables` on a fresh database. -/
def Table.empty : Table := []

/-- Source `DB.TrackNote`: `INSERT ... ON CONFLICT(note_path) DO UPDATE SET
expiry_datetime = excluded.expiry_datetime, tracked_at =
excluded.tracked_at`.  Returns the table afterwards and the error. -/
def TrackNote (db : Table) (note : Note) : Table × Option Error :=
  if db.any (fun r => r.Path = note.Path) then
    (db.map (fun r =>
      if r.Path = note.Path then
        { r with ExpiryDatetime := note.ExpiryDatetime, TrackedAt := note.TrackedAt }
      else r), none)
  else (db ++ [note], none)

/-- Source `DB.GetExpired`: `SELECT ... WHERE expiry_datetime <= ?` with one
reading of the clock as argument. -/
def GetExpired (db : Table) (clk : Clock) : (List Note × Option Error) × Clock :=
  let (now, clk) := clk.Now
  ((db.filter (fun r => r.ExpiryDatetime ≤ now), none), clk)

/-- The order of `ORDER BY expiry_datetime ASC`. -/
def expiryLE (a b : Note) : Prop := a.ExpiryDatetime ≤ b.ExpiryDatetime

instance : DecidableRel expiryLE := fun a b => Int.decLe a.ExpiryDatetime b.ExpiryDatetime

instance : IsTotal Note expiryLE := ⟨fun a b => Int.le_total a.ExpiryDatetime b.ExpiryDatetime⟩

instance : IsTrans Note expiryLE := ⟨fun _ _ _ hab hbc => Int.le_trans hab hbc⟩

/-- Source `DB.GetExpiringWithin`: the deadline is built from a first reading of
the clock, the lower bound is a second reading; `SELECT ... WHERE
expiry_datetime > ? AND expiry_datetime <= ? ORDER BY expiry_datetime ASC`. -/
def GetExpiringWithin (db : Table) (duration : Int) (clk : Clock) :
    (List Note × Option Error) × Clock :=
  let (t1, clk) := clk.Now
  let deadline := Time.Add t1 duration
  let (t2, clk) := clk.Now
  (((db.filter (fun r => t2 < r.ExpiryDatetime ∧ r.ExpiryDatetime ≤ deadline)).insertionSort
      expiryLE, none), clk)

/-- Source `DB.DeleteNote`: `DELETE FROM notes WHERE note_path = ?`. -/
def DeleteNote (db : Table) (path : GoString) : Table × Option Error :=
  (db.filter (fun r => r.Path ≠ path), none)

/-! ## scanner.go: `parseNote` -/

/-- Source `parseNote` of `scanner.go`: the note (or `nil`), or the error, and the
clock afterwards.  The struct literal reads the clock once for
`ExpiryDatetime` and once more for `TrackedAt`. -/
def parseNote (readFile : FileReader) (unmarshal : YamlDecoder) (filePath : GoString)
    (clk : Clock) : Except Error (Option Note) × Clock :=
  match readFile filePath with
  | .error err => (.error err, clk)
  | .ok content =>
    match extractFrontmatter content with
    | (_, _, some err) => (.error err, clk)
    | (frontmatter, _, none) =>
      match unmarshal frontmatter with
      | .error err => (.error err, clk)
      | .ok data =>
        match data "expiry_date".toList with
        | some (.str expiryStr) =>
          match parseDuration expiryStr with
          | .error err => (.error (.invalidExpiry err), clk)
          | .ok duration =>
            let (t1, clk) := clk.Now
            let (t2, clk) := clk.Now
            (.ok (some { Path := filePath, ExpiryDatetime := Time.Add t1 duration,
                         TrackedAt := t2 }), clk)
        | _ => (.ok none, clk)

/-! ## scanner.go: `ScanInbox` -/

/-- An entry of the listing returned by `os.ReadDir`. -/
structure DirEntry where
  Name : GoString
  IsDir : Bool
  deriving DecidableEq, Repr

/-- Go `os.ReadDir`, an external collaborator of the scanner. -/
abbrev DirReader := GoString → Except Error (List DirEntry)

/-- Go `filepath.Join` of a folder and a name, an external collaborator. -/
abbrev PathJoin := GoString → GoString → GoString

/-- The loop of `ScanInbox` over the directory entries, with the slice
`notes` built so far. -/
def scanLoop (readFile : FileReader) (unmarshal : YamlDecoder) (join : PathJoin)
    (inboxPath : GoString) : List DirEntry → List Note → Clock → List Note × Clock
  | [], notes, clk => (notes, clk)
  | entry :: rest, notes, clk =>
    if entry.IsDir || !HasSuffix entry.Name ".md".toList then
      scanLoop readFile unmarshal join inboxPath rest notes clk
    else
      let fullPath := join inboxPath entry.Name
      match parseNote readFile unmarshal fullPath clk with
      | (.error _, clk) => scanLoop readFile unmarshal join inboxPath rest notes clk
      | (.ok (some note), clk) =>
        scanLoop readFile unmarshal join inboxPath rest (notes ++ [note]) clk
      | (.ok none, clk) => scanLoop readFile unmarshal join inboxPath rest notes clk

/-- Source `ScanInbox` of `scanner.go`: the notes, or the error of the
directory listing, and the clock afterwards. -/
def ScanInbox (readDir : DirReader) (readFile : FileReader) (unmarshal : YamlDecoder)
    (join : PathJoin) (inboxPath : GoString) (clk : Clock) :
    Except Error (List Note) × Clock :=
  match readDir inboxPath with
  | .error err => (.error (.readInbox err), clk)
  | .ok entries =>
    let (notes, clk) := scanLoop readFile unmarshal join inboxPath entries [] clk
    (.ok notes, clk)

/-! ## The file system -/

/-- The part of the file system the program changes: the content of the
regular file at each path, and the paths on which the operating system
refuses a removal. -/
structure FileSystem where
  /-- content of the file at a path, if there is one -/
  files : GoString → Option GoString
  /-- whether the operating system refuses to remove the path -/
  locked : GoString → Bool

/-- Go `os.Stat`, reduced to its error, an external collaborator: it may
fail for a file that exists as well as for one that does not. -/
abbrev FileStat := FileSystem → GoString → Option Error

/-- Go `os.Remove`: fails when there is no file at the path or the path is
locked; otherwise the file is gone afterwards. -/
def osRemove (fs : FileSystem) (path : GoString) : FileSystem × Option Error :=
  match fs.files path with
  | none => (fs, some (.os path))
  | some _ =>
    if fs.locked path then (fs, some (.os path))
    else ({ fs with files := fun p => if p = path then none else fs.files p }, none)

/-- Go `os.WriteFile` of a path and a text, an external collaborator: the
file system it leaves (on failure possibly with an empty or partial file)
and its error. -/
abbrev FileWriter := FileSystem → GoString → GoString → FileSystem × Option Error

/-! ## main.go -/

/-- The call `db.DeleteNote(path)` as `main` sees it, on a storage engine
that fails the statement for the paths of `engineFails`: a failed
statement changes no row and returns the error; otherwise it is
`DeleteNote`. -/
def DeleteNoteOn (engineFails : GoString → Bool) (db : Table) (path : GoString) :
    Table × Option Error :=
  if engineFails path then (db, some (.engine path)) else DeleteNote db path

/-- The deletion loop of `main` over the expired notes: the file system,
the table and the paths passed to `DeleteNote` so far.  In dry-run mode
nothing is done; otherwise the file is removed first, a failed removal
continues with the next note, and after a successful removal `DeleteNote`
is called, whose error is only logged. -/
def deleteLoop (dryRun : Bool) (engineFails : GoString → Bool) :
    List Note → FileSystem → Table → List GoString → FileSystem × Table × List GoString
  | [], fs, db, calls => (fs, db, calls)
  | note :: rest, fs, db, calls =>
    if !dryRun then
      match osRemove fs note.Path with
      | (fs, some _) => deleteLoop dryRun engineFails rest fs db calls
      | (fs, none) =>
        match DeleteNoteOn engineFails db note.Path with
        | (db, some _) => deleteLoop dryRun engineFails rest fs db (calls ++ [note.Path])
        | (db, none) => deleteLoop dryRun engineFails rest fs db (calls ++ [note.Path])
    else deleteLoop dryRun engineFails rest fs db calls

/-- The deletion phase of `main` (the branch on `len(expired) > 0`). -/
def deletionPhase (dryRun : Bool) (engineFails : GoString → Bool) (expired : List Note)
    (fs : FileSystem) (db : Table) : FileSystem × Table × List GoString :=
  if expired.length > 0 then deleteLoop dryRun engineFails expired fs db []
  else (fs, db, [])

/-- The formatting helpers `writeReminderNote` calls: `filepath.Base`,
`Time.Format` for a layout, and the two numbers it derives from the
floating point `Duration.Hours()`, namely `int(d.Hours() / 24)` and
`int(d.Hours()) % 24`. -/
structure Formatter where
  Base : GoString → GoString
  Format : GoString → Time → GoString
  days : Int → Int
  hours : Int → Int

/-- The verb `%d` of `fmt.Sprintf`. -/
def formatInt (i : Int) : GoString := (toString i).toList

/-- Go `time.Until`: the duration from a fresh reading of the clock to `t`,
saturated to the range of `int64`. -/
def Until (t : Time) (clk : Clock) : Int × Clock :=
  let (now, clk) := clk.Now
  (max minInt64 (min maxInt64 (t - now)), clk)

/-- The bullet line `fmt.Sprintf("- [[%s]] - Expires in %dd %dh (%s)\n", ...)`. -/
def bulletLine (F : Formatter) (note : Note) (timeUntil : Int) : GoString :=
  "- [[".toList ++ F.Base note.Path ++ "]] - Expires in ".toList ++
    formatInt (F.days timeUntil) ++ "d ".toList ++ formatInt (F.hours timeUntil) ++
    "h (".toList ++ F.Format "2006-01-02 15:04".toList note.ExpiryDatetime ++ ")\n".toList

/-- The loop of `writeReminderNote` over the notes, appending one bullet
line per note to `content`. -/
def reminderLoop (F : Formatter) : List Note → GoString → Clock → GoString × Clock
  | [], content, clk => (content, clk)
  | note :: rest, content, clk =>
    let (timeUntil, clk) := Until note.ExpiryDatetime clk
    reminderLoop F rest (content ++ bulletLine F note timeUntil) clk

/-- The text `writeReminderNote` builds for a non-empty list of notes. -/
def reminderContent (F : Formatter) (notes : List Note) (clk : Clock) : GoString × Clock :=
  let content := "---\ntitle: Expiry Reminders\ntags:\n  - system\n---\n\n".toList
  let content := content ++ "# Notes Expiring Soon\n\n".toList
  let (now, clk) := clk.Now
  let content := content ++
    ("Last updated: ".toList ++ F.Format "2006-01-02 15:04:05".toList now ++ "\n\n".toList)
  reminderLoop F notes content clk

/-- Source `writeReminderNote` of `main.go`: the error, the file system
and the clock afterwards. -/
def writeReminderNote (stat : FileStat) (writeFile : FileWriter) (F : Formatter)
    (path : GoString) (notes : List Note) (fs : FileSystem) (clk : Clock) :
    Option Error × FileSystem × Clock :=
  if notes.length = 0 then
    if stat fs path = none then
      let (fs, err) := osRemove fs path
      (err, fs, clk)
    else (none, fs, clk)
  else
    let (content, clk) := reminderContent F notes clk
    let (fs, err) := writeFile fs path content
    (err, fs, clk)

/-! ## Specification side definitions -/

/-- The grammar of the pattern, stated on the string: one or more ASCII
digits followed by one unit letter. -/
def DurationGrammar (s : GoString) : Prop :=
  ∃ (ds : GoString) (u : Char),
    ds ≠ [] ∧ (∀ c ∈ ds, c.isDigit = true) ∧ u ∈ unitClass ∧ s = ds ++ [u]


/-- Seconds in one unit of the duration grammar: `s`, `m`, `h`, `d`. -/
def unitSeconds (u : Char) : Nat :=
  if u = 's' then 1 else if u = 'm' then 60 else if u = 'h' then 3600
  else if u = 'd' then 86400 else 0

/-- The grammar `<positive integer><unit>`: the decimal digits of a
positive integer immediately followed by one unit letter. -/
def PositiveDurationGrammar (s : GoString) : Prop :=
  ∃ (n : Nat) (u : Char), 0 < n ∧ u ∈ unitClass ∧ s = Nat.toDigits 10 n ++ [u]

/-- The string `t` is `s` with its leading and trailing white space removed: `s` is
`t` between two runs of white space, and `t` neither starts nor ends with
white space. -/
def IsTrimOf (s t : GoString) : Prop :=
  ∃ l r : GoString, s = l ++ t ++ r ∧ (∀ c ∈ l, isSpace c = true) ∧
    (∀ c ∈ r, isSpace c = true) ∧ (∀ c, t.head? = some c → isSpace c = false) ∧
    (∀ c, t.getLast? = some c → isSpace c = false)

/-- The marker `---` that opens and closes the header. -/
def marker : GoString := "---".toList

/-- A clock whose successive readings are `start`, `start + 1`, ... -/
def tickingClock (start : Time) : Clock := { readings := fun k => start + k, reads := 0 }

/-- A clock that reports the same instant at every call. -/
def frozenClock (now : Time) : Clock := { readings := fun _ => now, reads := 0 }

/-- A note file with the header `expiry_date: 7d`. -/
def sampleFile : GoString := "---\nexpiry_date: 7d\n---\nbody\n".toList

/-- A file system holding `sampleFile` under every path. -/
def sampleReader : FileReader := fun _ => .ok sampleFile

/-- A decoder that agrees with YAML on the header of `sampleFile` and
rejects every other input. -/
def sampleDecoder : YamlDecoder := fun fm =>
  if fm = "expiry_date: 7d".toList then
    .ok (fun k => if k = "expiry_date".toList then some (.str "7d".toList) else none)
  else .error (.yaml fm)

/-- A table of four notes expiring at the instants 1, 2, 10 and 11. -/
def sampleTable : Table :=
  [⟨"a.md".toList, 1, 0⟩, ⟨"b.md".toList, 2, 0⟩, ⟨"c.md".toList, 10, 0⟩,
   ⟨"d.md".toList, 11, 0⟩]

/-- An operation on the store. -/
inductive StoreOp where
  /-- a call of `TrackNote` -/
  | track (note : Note)
  /-- a call of `DeleteNote` -/
  | delete (path : GoString)
  /-- a call of `GetExpired`, with the clock it reads -/
  | getExpired (clk : Clock)
  /-- a call of `GetExpiringWithin`, with the clock it reads -/
  | getExpiringWithin (duration : Int) (clk : Clock)

/-- The table after one operation; the two queries are `SELECT`
statements and leave it as it is. -/
def applyOp (db : Table) : StoreOp → Table
  | .track note => (TrackNote db note).1
  | .delete path => (DeleteNote db path).1
  | .getExpired _ => db
  | .getExpiringWithin _ _ => db

/-- The table after a sequence of operations. -/
def runOps (db : Table) (ops : List StoreOp) : Table := ops.foldl applyOp db

/-- The rows stored under a path. -/
def Table.lookup (db : Table) (path : GoString) : List Note :=
  db.filter (fun r => r.Path = path)

/-- The header block `writeReminderNote` puts between the two markers. -/
def reminderHeaderBlock : GoString := "\ntitle: Expiry Reminders\ntags:\n  - system\n".toList

/-- The header of the reminder file, as `extractFrontmatter` returns it. -/
def reminderHeader : GoString := "title: Expiry Reminders\ntags:\n  - system".toList

/-- The bullet lines of the reminder file, one per note in the order
given; the line of each note uses its own reading of the clock. -/
def bulletLines (F : Formatter) : List Note → Clock → List GoString
  | [], _ => []
  | note :: rest, clk =>
    bulletLine F note (Until note.ExpiryDatetime clk).1 ::
      bulletLines F rest (Until note.ExpiryDatetime clk).2

/-- The text of the reminder file before the bullet lines, for the
instant `now` shown as last update. -/
def reminderPreamble (F : Formatter) (now : Time) : GoString :=
  "---\ntitle: Expiry Reminders\ntags:\n  - system\n---\n\n".toList ++
    "# Notes Expiring Soon\n\n".toList ++
    ("Last updated: ".toList ++ F.Format "2006-01-02 15:04:05".toList now ++ "\n\n".toList)

/-- Formatting helpers for the examples: the base name is the path itself,
every instant prints as `t`, and the day and hour counts are exact. -/
def sampleFormatter : Formatter :=
  { Base := fun p => p, Format := fun _ _ => "t".toList,
    days := fun d => d / (24 * Hour), hours := fun d => (d / Hour) % 24 }

/-- A file system with one file, the reminder, which the operating system
refuses to remove. -/
def lockedReminderFS : FileSystem :=
  { files := fun p => if p = "inbox/_expiry-reminders.md".toList then some "old".toList else none,
    locked := fun p => decide (p = "inbox/_expiry-reminders.md".toList) }

/-- A file system with one file, the reminder, which can be removed. -/
def reminderFS : FileSystem :=
  { files := fun p => if p = "inbox/_expiry-reminders.md".toList then some "old".toList else none,
    locked := fun _ => false }

/-- Whether `os.Remove` succeeds on a path: a file is there and the
operating system does not refuse. -/
def removable (fs : FileSystem) (path : GoString) : Bool :=
  (fs.files path).isSome && !fs.locked path

/-- A file system in which `a.md` can be removed, `b.md` is locked and
`c.md` does not exist. -/
def sampleFS : FileSystem :=
  { files := fun p =>
      if p = "a.md".toList ∨ p = "b.md".toList then some "text".toList else none,
    locked := fun p => decide (p = "b.md".toList) }

/-- The duration a note file declares, in the words of the scanner's
contract: read the file, extract the header, decode it, look up
`expiry_date`, and parse the value when it is a string; a file that fails
to read or to decode, an absent or non-string field and an unparseable
duration all give `none`. -/
def expiryOf (readFile : FileReader) (unmarshal : YamlDecoder) (path : GoString) :
    Option Int :=
  match readFile path with
  | .error _ => none
  | .ok content =>
    match unmarshal (extractFrontmatter content).1 with
    | .error _ => none
    | .ok data =>
      match data "expiry_date".toList with
      | some (.str expiryStr) =>
        match parseDuration expiryStr with
        | .ok duration => some duration
        | .error _ => none
      | _ => none

/-- A directory entry the scanner looks at: not a directory, and a name
ending in `.md`. -/
def candidate (entry : DirEntry) : Bool := !entry.IsDir && HasSuffix entry.Name ".md".toList

/-- The paths and durations of the entries that yield a note, in
enumeration order. -/
def scanSpec (readFile : FileReader) (unmarshal : YamlDecoder) (join : PathJoin)
    (inboxPath : GoString) (entries : List DirEntry) : List (GoString × Int) :=
  entries.filterMap (fun entry =>
    if candidate entry then
      (expiryOf readFile unmarshal (join inboxPath entry.Name)).map
        (fun d => (join inboxPath entry.Name, d))
    else none)

/-- The notes for a list of paths and durations, each stamped with two
successive readings of the clock, and the clock afterwards. -/
def stamp : List (GoString × Int) → Clock → List Note × Clock
  | [], clk => ([], clk)
  | (path, d) :: rest, clk =>
    let r := stamp rest { clk with reads := clk.reads + 1 + 1 }
    (⟨path, clk.readings clk.reads + d, clk.readings (clk.reads + 1)⟩ :: r.1, r.2)

/-- Joining a folder and a name with a slash, for the examples. -/
def sampleJoin : PathJoin := fun dir name => dir ++ "/".toList ++ name

/-- A listing with a subfolder, a text file and two notes. -/
def sampleDir : DirReader := fun _ =>
  .ok [⟨"sub.md".toList, true⟩, ⟨"x.txt".toList, false⟩, ⟨"a.md".toList, false⟩,
       ⟨"bad.md".toList, false⟩, ⟨"b.md".toList, false⟩]

/-- A file system in which `inbox/bad.md` cannot be read and every other
file is the sample note. -/
def sampleReaderBad : FileReader := fun p =>
  if p = "inbox/bad.md".toList then .error (.os p) else .ok sampleFile

/-- For the examples: an `os.Stat` that succeeds exactly on the files that
exist. -/
def sampleStat : FileStat := fun fs path =>
  match fs.files path with
  | some _ => none
  | none => some (.os path)

/-- For the examples: an `os.WriteFile` that succeeds and leaves the text
in the file. -/
def sampleWriter : FileWriter := fun fs path data =>
  ({ fs with files := fun p => if p = path then some data else fs.files p }, none)

/-- For the examples: an `os.WriteFile` that is refused before anything is
written. -/
def refusingWriter : FileWriter := fun fs path _ => (fs, some (.os path))

/-- For the examples: a storage engine that fails every statement on
`a.md`. -/
def sampleEngineFails : GoString → Bool := fun p => decide (p = "a.md".toList)

/-- For the examples: a storage engine that never fails. -/
def engineNeverFails : GoString → Bool := fun _ => false

/-! ## Arithmetic of `int64` -/

theorem wrap64_of_inRange (x : Int) (h0 : -(2 ^ 63) ≤ x) (h1 : x ≤ 2 ^ 63 - 1) :
    wrap64 x = x := by
  unfold wrap64
  rw [Int.emod_eq_of_lt (by omega) (by omega)]
  omega

theorem wrap64_lt (x : Int) : wrap64 x ≤ 2 ^ 63 - 1 := by
  unfold wrap64
  have := Int.emod_lt_of_pos (x + 2 ^ 63) (show (0 : Int) < 2 ^ 64 by norm_num)
  omega

theorem wrap64_mul_wrap64 (a b : Int) : wrap64 (wrap64 a * b) = wrap64 (a * b) := by
  unfold wrap64
  have h : ((a + 2 ^ 63) % 2 ^ 64 - 2 ^ 63) * b + 2 ^ 63 ≡ a * b + 2 ^ 63 [ZMOD 2 ^ 64] := by
    have h1 : (a + 2 ^ 63) % 2 ^ 64 ≡ a + 2 ^ 63 [ZMOD 2 ^ 64] := Int.mod_modEq _ _
    have h2 : (a + 2 ^ 63) % 2 ^ 64 - 2 ^ 63 ≡ a [ZMOD 2 ^ 64] := by
      have h3 := h1.sub_right (2 ^ 63)
      rwa [add_sub_cancel_right] at h3
    exact (h2.mul_right b).add_right _
  rw [h.eq]

theorem Second_eq : Second = 1000000000 := by decide

theorem Minute_eq : Minute = 60000000000 := by decide

theorem Hour_eq : Hour = 3600000000000 := by decide

theorem unitSeconds_s : unitSeconds 's' = 1 := by decide

theorem unitSeconds_m : unitSeconds 'm' = 60 := by decide

theorem unitSeconds_h : unitSeconds 'h' = 3600 := by decide

theorem unitSeconds_d : unitSeconds 'd' = 86400 := by decide

/-! ## Characters -/

theorem isDigit_iff (c : Char) : c.isDigit = true ↔ 48 ≤ c.toNat ∧ c.toNat ≤ 57 := by
  simp [Char.isDigit, Char.toNat, UInt32.le_def, UInt32.toNat, BitVec.le_def]

theorem isSpace_of_isDigit (c : Char) (h : c.isDigit = true) : isSpace c = false := by
  rw [isDigit_iff] at h
  simp only [isSpace, Bool.or_eq_false_iff, Bool.and_eq_false_imp, decide_eq_false_iff_not,
    decide_eq_true_eq]
  omega

theorem isSpace_of_unit (u : Char) (h : u ∈ unitClass) : isSpace u = false := by
  simp only [unitClass, List.mem_cons, List.mem_singleton, List.not_mem_nil, or_false] at h
  rcases h with rfl | rfl | rfl | rfl <;> decide

/-! ## Trimming -/

theorem TrimSpace_eq_self (s : GoString) (c u : Char) (t : GoString)
    (hs : s = c :: t) (hc : isSpace c = false) (hl : s.getLast? = some u)
    (hu : isSpace u = false) : TrimSpace s = s := by
  subst hs
  unfold TrimSpace
  have h1 : (c :: t).dropWhile isSpace = c :: t := by simp [List.dropWhile, hc]
  rw [h1]
  obtain ⟨r, hr⟩ : ∃ r, (c :: t).reverse = u :: r := by
    rw [List.getLast?_eq_head?_reverse] at hl
    cases h : (c :: t).reverse with
    | nil => simp [h] at hl
    | cons a r =>
      rw [h] at hl
      simp only [List.head?_cons, Option.some.injEq] at hl
      exact ⟨r, by rw [hl]⟩
  rw [hr]
  have h2 : (u :: r).dropWhile isSpace = u :: r := by simp [List.dropWhile, hu]
  rw [h2, ← hr, List.reverse_reverse]

/-! ## The duration pattern -/

theorem FindStringSubmatch_append (ds : GoString) (u : Char) (h0 : ds ≠ [])
    (hd : ∀ c ∈ ds, c.isDigit = true) (hu : u ∈ unitClass) :
    FindStringSubmatch (ds ++ [u]) = [ds ++ [u], ds, [u]] := by
  unfold FindStringSubmatch
  have h1 : (ds ++ [u]).getLast? = some u := by simp
  rw [h1]
  have h2 : (ds ++ [u]).dropLast = ds := by simp
  simp only [h2]
  have h3 : ds.isEmpty = false := by
    cases ds with
    | nil => exact absurd rfl h0
    | cons a l => rfl
  have h4 : ds.all Char.isDigit = true := by
    rw [List.all_eq_true]; exact hd
  have h5 : unitClass.contains u = true := by
    simpa using hu
  simp [h3, h4, hu]

theorem FindStringSubmatch_length (s : GoString) :
    (FindStringSubmatch s).length = 3 ↔ DurationGrammar s := by
  constructor
  · intro h
    unfold FindStringSubmatch at h
    cases hl : s.getLast? with
    | none => rw [hl] at h; simp at h
    | some u =>
      rw [hl] at h
      simp only at h
      by_cases hc : (!s.dropLast.isEmpty && s.dropLast.all Char.isDigit &&
          unitClass.contains u) = true
      · simp only [Bool.and_eq_true, Bool.not_eq_true', List.all_eq_true] at hc
        obtain ⟨⟨ha, hb⟩, hu⟩ := hc
        refine ⟨s.dropLast, u, ?_, hb, ?_, ?_⟩
        · intro h0; rw [h0] at ha; simp at ha
        · simpa using hu
        · have hne : s ≠ [] := by
            intro h0; rw [h0] at hl; simp at hl
          have := List.dropLast_append_getLast hne
          rw [List.getLast?_eq_getLast s hne] at hl
          simp only [Option.some.injEq] at hl
          rw [hl] at this
          exact this.symm
      · rw [if_neg hc] at h
        simp at h
  · rintro ⟨ds, u, h0, hd, hu, rfl⟩
    rw [FindStringSubmatch_append ds u h0 hd hu]
    rfl

theorem FindStringSubmatch_nil_of_not (s : GoString) (h : ¬ DurationGrammar s) :
    FindStringSubmatch s = [] := by
  unfold FindStringSubmatch
  cases hl : s.getLast? with
  | none => rfl
  | some u =>
    simp only
    split
    · rename_i hc
      exfalso
      apply h
      rw [← FindStringSubmatch_length]
      unfold FindStringSubmatch
      rw [hl]
      simp only
      rw [if_pos hc]
      rfl
    · rfl

/-! ## Decimal numerals -/

theorem digitChar_toNat (k : Nat) (h : k < 10) : (Nat.digitChar k).toNat - 48 = k := by
  interval_cases k <;> rfl

theorem digitChar_isDigit (k : Nat) (h : k < 10) : (Nat.digitChar k).isDigit = true := by
  interval_cases k <;> rfl

theorem foldl_toDigitsCore (fuel : Nat) : ∀ (n : Nat) (ds : List Char), n < fuel →
    (Nat.toDigitsCore 10 fuel n ds).foldl (fun acc c => 10 * acc + (c.toNat - 48)) 0
      = ds.foldl (fun acc c => 10 * acc + (c.toNat - 48)) n := by
  induction fuel with
  | zero => intro n ds h; omega
  | succ fuel ih =>
    intro n ds h
    unfold Nat.toDigitsCore
    simp only
    have hd := digitChar_toNat (n % 10) (Nat.mod_lt _ (by norm_num))
    split
    · rename_i h0
      simp only [List.foldl_cons, hd]
      congr 1
      omega
    · rename_i h0
      rw [ih (n / 10) _ (by omega)]
      simp only [List.foldl_cons, hd]
      congr 1
      omega

theorem decimalValue_toDigits (n : Nat) : decimalValue (Nat.toDigits 10 n) = n := by
  unfold decimalValue Nat.toDigits
  rw [foldl_toDigitsCore (n + 1) n [] (by omega)]
  rfl

theorem isDigit_toDigitsCore (fuel : Nat) : ∀ (n : Nat) (ds : List Char),
    (∀ c ∈ ds, c.isDigit = true) → ∀ c ∈ Nat.toDigitsCore 10 fuel n ds, c.isDigit = true := by
  induction fuel with
  | zero => intro n ds h; simpa [Nat.toDigitsCore] using h
  | succ fuel ih =>
    intro n ds h
    unfold Nat.toDigitsCore
    simp only
    have hd := digitChar_isDigit (n % 10) (Nat.mod_lt _ (by norm_num))
    have h1 : ∀ c ∈ Nat.digitChar (n % 10) :: ds, c.isDigit = true := by
      intro c hc
      rcases List.mem_cons.1 hc with rfl | hc
      · exact hd
      · exact h c hc
    split
    · exact h1
    · exact ih _ _ h1

theorem isDigit_toDigits (n : Nat) : ∀ c ∈ Nat.toDigits 10 n, c.isDigit = true :=
  isDigit_toDigitsCore (n + 1) n [] (by simp)

theorem toDigitsCore_ne_nil (fuel : Nat) : ∀ (n : Nat) (ds : List Char),
    (fuel = 0 → ds ≠ []) → Nat.toDigitsCore 10 fuel n ds ≠ [] := by
  induction fuel with
  | zero => intro n ds h; simpa [Nat.toDigitsCore] using h rfl
  | succ fuel ih =>
    intro n ds _
    unfold Nat.toDigitsCore
    simp only
    split
    · simp
    · exact ih _ _ (by simp)

theorem toDigits_ne_nil (n : Nat) : Nat.toDigits 10 n ≠ [] :=
  toDigitsCore_ne_nil (n + 1) n [] (by simp)

theorem Atoi_digits (ds : GoString) (h0 : ds ≠ []) (hd : ∀ c ∈ ds, c.isDigit = true) :
    (Atoi ds).1 = if (decimalValue ds : Int) > maxInt64 then maxInt64 else decimalValue ds := by
  obtain ⟨c, t, rfl⟩ : ∃ c t, ds = c :: t := by
    cases ds with
    | nil => exact absurd rfl h0
    | cons c t => exact ⟨c, t, rfl⟩
  have hc : c.isDigit = true := hd c (by simp)
  have hm : c ≠ '-' := by rintro rfl; simp at hc
  have hp : c ≠ '+' := by rintro rfl; simp at hc
  have hall : (c :: t).all Char.isDigit = true := by
    rw [List.all_eq_true]; exact hd
  unfold Atoi
  simp only [List.head?_cons, Option.some.injEq, hm, hp, or_self, if_false, hall,
    List.isEmpty_cons, Bool.not_true, Bool.or_self, Bool.false_eq_true, decide_False]
  split <;> rfl

/-! ## `parseDuration` -/

theorem parseDuration_append (ds : GoString) (u : Char) (h0 : ds ≠ [])
    (hd : ∀ c ∈ ds, c.isDigit = true) (hu : u ∈ unitClass) :
    parseDuration (ds ++ [u]) =
      if u = 'd' then .ok (mul64 (mul64 (Atoi ds).1 24) Hour)
      else if u = 'h' then .ok (mul64 (Atoi ds).1 Hour)
      else if u = 'm' then .ok (mul64 (Atoi ds).1 Minute)
      else .ok (mul64 (Atoi ds).1 Second) := by
  obtain ⟨c, t, hct⟩ : ∃ c t, ds = c :: t := by
    cases ds with
    | nil => exact absurd rfl h0
    | cons c t => exact ⟨c, t, rfl⟩
  have htrim : TrimSpace (ds ++ [u]) = ds ++ [u] :=
    TrimSpace_eq_self (ds ++ [u]) c u (t ++ [u]) (by rw [hct]; rfl)
      (isSpace_of_isDigit c (hd c (by rw [hct]; simp))) (by simp) (isSpace_of_unit u hu)
  unfold parseDuration
  simp only [htrim, FindStringSubmatch_append ds u h0 hd hu]
  simp only [unitClass, List.mem_cons, List.mem_singleton, List.not_mem_nil, or_false] at hu
  rcases hu with rfl | rfl | rfl | rfl <;> simp [List.getD]

theorem parseDuration_ok_le (s : GoString) (d : Int) (h : parseDuration s = .ok d) :
    d ≤ maxInt64 := by
  unfold parseDuration at h
  simp only at h
  split at h
  · cases h
  · repeat' split at h
    all_goals first
      | (injection h with h; subst h; exact wrap64_lt _)
      | cases h

theorem toDigits_head_isDigit (n : Nat) (c : Char) (t : GoString)
    (h : Nat.toDigits 10 n = c :: t) : c.isDigit = true :=
  isDigit_toDigits n c (by rw [h]; simp)

/-- C1 (amended): for the decimal digits of a positive integer `n` followed
by one unit letter `u` of `s`, `m`, `h`, `d`, `parseDuration` succeeds, and
the duration it returns is exactly `n * unitSeconds u` seconds (in
nanoseconds) if and only if that many nanoseconds fit in a signed 64-bit
integer. -/
theorem parseDuration_valid (n : Nat) (u : Char) (hn : 0 < n) (hu : u ∈ unitClass) :
    (∃ d, parseDuration (Nat.toDigits 10 n ++ [u]) = .ok d) ∧
    (parseDuration (Nat.toDigits 10 n ++ [u]) = .ok ((n : Int) * unitSeconds u * 1000000000)
      ↔ (n : Int) * unitSeconds u * 1000000000 ≤ maxInt64) := by
  have hp := parseDuration_append (Nat.toDigits 10 n) u (toDigits_ne_nil n)
    (isDigit_toDigits n) hu
  refine ⟨?_, ?_, ?_⟩
  · rw [hp]
    split_ifs <;> exact ⟨_, rfl⟩
  · intro h
    exact parseDuration_ok_le _ _ h
  · intro hfit
    have hnn : (0 : Int) ≤ n := by exact_mod_cast hn.le
    have hat := Atoi_digits (Nat.toDigits 10 n) (toDigits_ne_nil n) (isDigit_toDigits n)
    rw [decimalValue_toDigits] at hat
    simp only [unitClass, List.mem_cons, List.mem_singleton, List.not_mem_nil, or_false] at hu
    have hus : (1 : Int) ≤ unitSeconds u := by
      rcases hu with rfl | rfl | rfl | rfl <;> decide
    have hsmall : ¬ ((n : Int) > maxInt64) := by
      have h1 : (n : Int) * 1 ≤ (n : Int) * unitSeconds u * 1000000000 := by
        rw [mul_assoc]
        exact mul_le_mul_of_nonneg_left (by omega) hnn
      omega
    rw [if_neg hsmall] at hat
    have hnonneg : (0 : Int) ≤ (n : Int) * unitSeconds u * 1000000000 :=
      mul_nonneg (mul_nonneg hnn (by omega)) (by norm_num)
    have hw := wrap64_of_inRange _ (by omega) hfit
    rw [hp, hat]
    rcases hu with rfl | rfl | rfl | rfl
    · rw [if_pos rfl]
      unfold mul64
      rw [wrap64_mul_wrap64]
      have he : (n : Int) * 24 * Hour = (n : Int) * unitSeconds 'd' * 1000000000 := by
        rw [Hour_eq, unitSeconds_d]; push_cast; ring
      rw [he, hw]
    · rw [if_neg (by decide), if_pos rfl]
      unfold mul64
      have he : (n : Int) * Hour = (n : Int) * unitSeconds 'h' * 1000000000 := by
        rw [Hour_eq, unitSeconds_h]; push_cast; ring
      rw [he, hw]
    · rw [if_neg (by decide), if_neg (by decide), if_pos rfl]
      unfold mul64
      have he : (n : Int) * Minute = (n : Int) * unitSeconds 'm' * 1000000000 := by
        rw [Minute_eq, unitSeconds_m]; push_cast; ring
      rw [he, hw]
    · rw [if_neg (by decide), if_neg (by decide), if_neg (by decide)]
      unfold mul64
      have he : (n : Int) * Second = (n : Int) * unitSeconds 's' * 1000000000 := by
        rw [Second_eq, unitSeconds_s]; push_cast; ring
      rw [he, hw]

/-- Witness of C1: `"30d"` gives 2,592,000 seconds. -/
theorem parseDuration_valid_witness :
    0 < 30 ∧ 'd' ∈ unitClass ∧ Nat.toDigits 10 30 ++ ['d'] = "30d".toList ∧
    (30 : Int) * unitSeconds 'd' = 2592000 ∧
    parseDuration (Nat.toDigits 10 30 ++ ['d'])
      = .ok (((30 : Nat) : Int) * unitSeconds 'd' * 1000000000) :=
  ⟨by decide, by decide, by decide, by decide,
    (parseDuration_valid 30 'd' (by decide) (by decide)).2.2 (by decide)⟩

/-- Counterexample to C1 as stated: for `n = 9223372037` and the unit `s`
the product overflows `int64` and the duration returned is negative, not
`n` seconds. -/
theorem parseDuration_valid_counterexample :
    Nat.toDigits 10 9223372037 ++ ['s'] = "9223372037s".toList ∧
    parseDuration (Nat.toDigits 10 9223372037 ++ ['s']) = .ok (-9223372036709551616) ∧
    parseDuration (Nat.toDigits 10 9223372037 ++ ['s'])
      ≠ .ok (((9223372037 : Nat) : Int) * unitSeconds 's' * 1000000000) := by
  refine ⟨by decide, by decide, by decide⟩

theorem not_positiveGrammar_of_head (c : Char) (t : GoString) (hc : c.isDigit = false) :
    ¬ PositiveDurationGrammar (c :: t) := by
  rintro ⟨n, u, _, _, h⟩
  cases hd : Nat.toDigits 10 n with
  | nil => exact toDigits_ne_nil n hd
  | cons a l =>
    rw [hd] at h
    simp only [List.cons_append, List.cons.injEq] at h
    have := toDigits_head_isDigit n a l hd
    rw [← h.1, hc] at this
    cases this

/-- C2 (amended): `parseDuration` trims white space from both ends of its
argument first; every string whose trimmed form is not one or more decimal
digits followed by one unit letter of `s`, `m`, `h`, `d` fails with the
invalid-format error (which carries the trimmed string) and yields no
duration.  In particular the empty string, `"-7d"`, `"7"`, `"7 d"` and
`"7w"` fail so. -/
theorem parseDuration_invalid :
    (∀ s : GoString, ¬ DurationGrammar (TrimSpace s) →
      parseDuration s = .error (.invalidFormat (TrimSpace s))) ∧
    parseDuration "".toList = .error (.invalidFormat "".toList) ∧
    parseDuration "-7d".toList = .error (.invalidFormat "-7d".toList) ∧
    parseDuration "7".toList = .error (.invalidFormat "7".toList) ∧
    parseDuration "7 d".toList = .error (.invalidFormat "7 d".toList) ∧
    parseDuration "7w".toList = .error (.invalidFormat "7w".toList) := by
  refine ⟨?_, by decide, by decide, by decide, by decide, by decide⟩
  intro s h
  unfold parseDuration
  simp only [FindStringSubmatch_nil_of_not _ h]
  rfl

/-- Witness of C2: `"7 d"`, trimmed, is not digits followed by a unit. -/
theorem parseDuration_invalid_witness :
    ¬ DurationGrammar (TrimSpace "7 d".toList) ∧
    parseDuration "7 d".toList = .error (.invalidFormat (TrimSpace "7 d".toList)) :=
  ⟨by rw [← FindStringSubmatch_length]; decide,
    parseDuration_invalid.1 "7 d".toList (by rw [← FindStringSubmatch_length]; decide)⟩

/-- Counterexample to C2 as stated: `" 7d"` and `"7d "` carry extra white
space, so they are not `<positive integer><unit>`, yet `parseDuration`
accepts both as seven days. -/
theorem parseDuration_invalid_counterexample :
    ¬ PositiveDurationGrammar " 7d".toList ∧
    parseDuration " 7d".toList = .ok 604800000000000 ∧
    ¬ PositiveDurationGrammar "7d ".toList ∧
    parseDuration "7d ".toList = .ok 604800000000000 := by
  refine ⟨not_positiveGrammar_of_head ' ' _ (by decide), by decide, ?_, by decide⟩
  rintro ⟨n, u, _, hu, h⟩
  have hl : ("7d ".toList).getLast? = some u := by rw [h]; simp
  have hu2 : u = ' ' := by
    have : ("7d ".toList).getLast? = some ' ' := by decide
    rw [this] at hl
    exact (Option.some.inj hl).symm
  subst hu2
  revert hu
  decide

/-! ## `strings.Index` -/

theorem indexFrom_eq_neg_one (sep : GoString) : ∀ (s : GoString) (i : Nat),
    ¬ sep <:+: s → indexFrom sep s i = -1 := by
  intro s
  induction s with
  | nil =>
    intro i h
    unfold indexFrom
    split
    · rename_i he
      exfalso
      apply h
      rw [List.isEmpty_iff] at he
      rw [he]
    · rfl
  | cons c cs ih =>
    intro i h
    unfold indexFrom
    split
    · rename_i hp
      exfalso
      exact h (List.isPrefixOf_iff_prefix.1 hp).isInfix
    · exact ih (i + 1) (fun hcs => h (hcs.trans (List.suffix_cons c cs).isInfix))

theorem indexFrom_first (sep : GoString) (hsep : sep ≠ []) (b : GoString) :
    ∀ (h : GoString) (k : Nat),
    (∀ i, i < h.length → ¬ sep <+: (h ++ sep ++ b).drop i) →
    indexFrom sep (h ++ sep ++ b) k = ((k + h.length : Nat) : Int) := by
  intro h
  induction h with
  | nil =>
    intro k _
    obtain ⟨a, l, rfl⟩ : ∃ a l, sep = a :: l := by
      cases sep with
      | nil => exact absurd rfl hsep
      | cons a l => exact ⟨a, l, rfl⟩
    simp only [List.nil_append, List.cons_append, List.length_nil, Nat.add_zero]
    unfold indexFrom
    have hp : (a :: l).isPrefixOf (a :: (l ++ b)) = true := by
      rw [List.isPrefixOf_iff_prefix]
      exact List.prefix_append (a :: l) b
    rw [if_pos hp]
  | cons c t ih =>
    intro k hfirst
    have h0 := hfirst 0 (by simp)
    simp only [List.drop_zero, List.cons_append] at h0
    simp only [List.cons_append]
    unfold indexFrom
    have hp : ¬ (sep.isPrefixOf (c :: (t ++ sep ++ b)) = true) := by
      rw [List.isPrefixOf_iff_prefix]
      simpa using h0
    rw [if_neg hp]
    have hrec := ih (k + 1) (fun i hi => by
      have := hfirst (i + 1) (by simp; omega)
      simpa using this)
    simp only [List.append_assoc] at hrec ⊢
    rw [hrec]
    simp only [List.length_cons]
    congr 1
    omega

/-! ## `strings.TrimSpace` -/

theorem TrimSpace_isTrimOf (s : GoString) : IsTrimOf s (TrimSpace s) := by
  have hs : s.takeWhile isSpace ++ s.dropWhile isSpace = s :=
    List.takeWhile_append_dropWhile isSpace s
  have hd : (s.dropWhile isSpace).reverse.takeWhile isSpace
      ++ (s.dropWhile isSpace).reverse.dropWhile isSpace = (s.dropWhile isSpace).reverse :=
    List.takeWhile_append_dropWhile isSpace _
  have hd2 : s.dropWhile isSpace = TrimSpace s
      ++ ((s.dropWhile isSpace).reverse.takeWhile isSpace).reverse := by
    have := congrArg List.reverse hd
    rw [List.reverse_append, List.reverse_reverse] at this
    exact this.symm
  refine ⟨s.takeWhile isSpace, ((s.dropWhile isSpace).reverse.takeWhile isSpace).reverse,
    ?_, ?_, ?_, ?_, ?_⟩
  · rw [List.append_assoc, ← hd2, hs]
  · intro c hc
    exact List.mem_takeWhile_imp hc
  · intro c hc
    exact List.mem_takeWhile_imp (List.mem_reverse.1 hc)
  · intro c hc
    have h1 : (s.dropWhile isSpace).head? = some c := by
      rw [hd2, List.head?_append, hc]
      rfl
    have h2 := List.head?_dropWhile_not isSpace s
    rw [h1] at h2
    exact h2
  · intro c hc
    unfold TrimSpace at hc
    rw [List.getLast?_reverse] at hc
    have h2 := List.head?_dropWhile_not isSpace (s.dropWhile isSpace).reverse
    rw [hc] at h2
    exact h2

/-! ## `extractFrontmatter` -/

/-- C3: a text that does not start with the marker `---` is returned
whole as the body, with an empty header and no error. -/
theorem extractFrontmatter_no_marker (content : GoString)
    (h : ¬ marker <+: content) :
    extractFrontmatter content = ([], content, none) := by
  unfold extractFrontmatter HasPrefix
  have hp : ("---".toList).isPrefixOf content = false := by
    rw [Bool.eq_false_iff]
    intro hp
    exact h (List.isPrefixOf_iff_prefix.1 hp)
  simp only [hp, Bool.not_false, if_true]

/-- Witness of C3: a text that starts with a blank before the dashes. -/
theorem extractFrontmatter_no_marker_witness :
    ¬ marker <+: " ---\nexpiry_date: 7d\n---\n".toList ∧
    extractFrontmatter " ---\nexpiry_date: 7d\n---\n".toList
      = ([], " ---\nexpiry_date: 7d\n---\n".toList, none) :=
  ⟨by rw [← List.isPrefixOf_iff_prefix]; decide,
    extractFrontmatter_no_marker _ (by rw [← List.isPrefixOf_iff_prefix]; decide)⟩

/-- C4: a text that starts with `---` and has no further `---` after those
three characters is returned whole as the body (opening marker included),
with an empty header and no error. -/
theorem extractFrontmatter_unterminated (rest : GoString)
    (h : ¬ marker <:+: rest) :
    extractFrontmatter (marker ++ rest) = ([], marker ++ rest, none) := by
  unfold extractFrontmatter HasPrefix
  have hp : ("---".toList).isPrefixOf (marker ++ rest) = true := by
    rw [List.isPrefixOf_iff_prefix]
    exact List.prefix_append _ _
  have hr : sliceFrom (marker ++ rest) 3 = rest := by
    simp [sliceFrom, marker]
  have hi : Index rest "---".toList = -1 := indexFrom_eq_neg_one _ rest 0 h
  simp only [hp, hr, hi, Bool.not_true, Bool.false_eq_true, if_false, if_true]

/-- Witness of C4: an opening marker, a header line and two dashes. -/
theorem extractFrontmatter_unterminated_witness :
    ¬ marker <:+: "\nexpiry_date: 7d\n--".toList ∧
    extractFrontmatter (marker ++ "\nexpiry_date: 7d\n--".toList)
      = ([], marker ++ "\nexpiry_date: 7d\n--".toList, none) :=
  ⟨by decide, extractFrontmatter_unterminated _ (by decide)⟩

/-- C5: for a text `---` ++ h ++ `---` ++ b in which the closing marker is
the first `---` found after the opening three characters,
`extractFrontmatter` returns `h` and `b`, each with its leading and
trailing white space removed, and no error. -/
theorem extractFrontmatter_split (h b : GoString)
    (hfirst : ∀ i, i < h.length → ¬ marker <+: (h ++ marker ++ b).drop i) :
    extractFrontmatter (marker ++ h ++ marker ++ b) = (TrimSpace h, TrimSpace b, none) ∧
    IsTrimOf h (TrimSpace h) ∧ IsTrimOf b (TrimSpace b) := by
  refine ⟨?_, TrimSpace_isTrimOf h, TrimSpace_isTrimOf b⟩
  unfold extractFrontmatter HasPrefix
  have hp : ("---".toList).isPrefixOf (marker ++ h ++ marker ++ b) = true := by
    rw [List.isPrefixOf_iff_prefix, List.append_assoc, List.append_assoc]
    exact List.prefix_append _ _
  have hr : sliceFrom (marker ++ h ++ marker ++ b) 3 = h ++ marker ++ b := by
    simp [sliceFrom, marker]
  have hi : Index (h ++ marker ++ b) "---".toList = (h.length : Int) := by
    have := indexFrom_first marker (by decide) b h 0 hfirst
    simpa [Index, marker] using this
  have hne : ((h.length : Int) = -1) = False := by
    simp only [eq_iff_iff, iff_false]; omega
  have ht : sliceTo (h ++ marker ++ b) (h.length : Int) = h := by
    simp [sliceTo]
  have hb : sliceFrom (h ++ marker ++ b) ((h.length : Int) + 3) = b := by
    have h3 : ((h.length : Int) + 3).toNat = h.length + 3 := by omega
    simp only [sliceFrom, h3, List.append_assoc]
    rw [List.drop_append_eq_append_drop]
    simp [marker]
  simp only [hp, hr, hi, hne, ht, hb, Bool.not_true, Bool.false_eq_true, if_false]

/-- Witness of C5: a header line between two markers, then a body. -/
theorem extractFrontmatter_split_witness :
    (∀ i, i < ("\nexpiry_date: 7d\n".toList).length →
      ¬ marker <+: ("\nexpiry_date: 7d\n".toList ++ marker ++ "\nbody\n".toList).drop i) ∧
    (extractFrontmatter (marker ++ "\nexpiry_date: 7d\n".toList ++ marker ++ "\nbody\n".toList)
      = (TrimSpace "\nexpiry_date: 7d\n".toList, TrimSpace "\nbody\n".toList, none)) ∧
    TrimSpace "\nexpiry_date: 7d\n".toList = "expiry_date: 7d".toList ∧
    TrimSpace "\nbody\n".toList = "body".toList :=
  ⟨by decide, (extractFrontmatter_split _ _ (by decide)).1, by decide, by decide⟩

/-! ## The store -/

theorem filter_path_eq_nil (db : Table) (p : GoString) (h : p ∉ db.map Note.Path) :
    db.filter (fun r => r.Path = p) = [] := by
  rw [List.filter_eq_nil_iff]
  intro r hr hp
  simp only [decide_eq_true_eq] at hp
  exact h (by rw [← hp]; exact List.mem_map_of_mem _ hr)

theorem filter_path_length_le_one (db : Table) (p : GoString) (h : Table.WF db) :
    (db.filter (fun r => r.Path = p)).length ≤ 1 := by
  induction db with
  | nil => simp
  | cons r t ih =>
    unfold Table.WF at h ih
    rw [List.map_cons, List.nodup_cons] at h
    by_cases hp : r.Path = p
    · rw [List.filter_cons_of_pos (by simpa using hp)]
      rw [filter_path_eq_nil t p (by rw [← hp]; exact h.1)]
      simp
    · rw [List.filter_cons_of_neg (by simpa using hp)]
      exact ih h.2

theorem TrackNote_paths_of_any (db : Table) (n : Note)
    (h : db.any (fun r => r.Path = n.Path) = true) :
    (TrackNote db n).1.map Note.Path = db.map Note.Path := by
  unfold TrackNote
  rw [if_pos h]
  simp only [List.map_map]
  apply List.map_congr_left
  intro r _
  simp only [Function.comp]
  split <;> rfl

theorem TrackNote_paths_of_not_any (db : Table) (n : Note)
    (h : ¬ db.any (fun r => r.Path = n.Path) = true) :
    (TrackNote db n).1.map Note.Path = db.map Note.Path ++ [n.Path] := by
  unfold TrackNote
  rw [if_neg h]
  simp

theorem any_path_iff (db : Table) (p : GoString) :
    db.any (fun r => r.Path = p) = true ↔ p ∈ db.map Note.Path := by
  simp only [List.any_eq_true, decide_eq_true_eq, List.mem_map]

theorem TrackNote_WF (db : Table) (n : Note) (h : Table.WF db) : Table.WF (TrackNote db n).1 := by
  unfold Table.WF at h ⊢
  by_cases ha : db.any (fun r => r.Path = n.Path) = true
  · rw [TrackNote_paths_of_any db n ha]; exact h
  · rw [TrackNote_paths_of_not_any db n ha]
    rw [any_path_iff] at ha
    exact List.Nodup.append h (List.nodup_singleton _) (by simpa using ha)

theorem TrackNote_mem_path (db : Table) (n : Note) :
    n.Path ∈ (TrackNote db n).1.map Note.Path := by
  by_cases ha : db.any (fun r => r.Path = n.Path) = true
  · rw [TrackNote_paths_of_any db n ha]; exact (any_path_iff db n.Path).1 ha
  · rw [TrackNote_paths_of_not_any db n ha]; simp

theorem TrackNote_filter_of_any (db : Table) (n : Note)
    (h : db.any (fun r => r.Path = n.Path) = true) :
    (TrackNote db n).1.filter (fun r => r.Path = n.Path)
      = (db.filter (fun r => r.Path = n.Path)).map (fun _ => n) := by
  unfold TrackNote
  rw [if_pos h]
  clear h
  induction db with
  | nil => rfl
  | cons r t ih =>
    simp only [List.map_cons]
    by_cases hp : r.Path = n.Path
    · rw [if_pos hp, List.filter_cons_of_pos (by simpa using hp),
        List.filter_cons_of_pos (by simpa using hp), List.map_cons, ih]
      congr 1
      cases n
      simp only at hp
      simp [hp]
    · rw [if_neg hp, List.filter_cons_of_neg (by simpa using hp),
        List.filter_cons_of_neg (by simpa using hp), ih]

theorem TrackNote_filter_self (db : Table) (n : Note) (h : Table.WF db) :
    (TrackNote db n).1.filter (fun r => r.Path = n.Path) = [n] := by
  by_cases ha : db.any (fun r => r.Path = n.Path) = true
  · rw [TrackNote_filter_of_any db n ha]
    have hle := filter_path_length_le_one db n.Path h
    obtain ⟨r, hr, hrp⟩ := List.any_eq_true.1 ha
    have hmem : r ∈ db.filter (fun r => r.Path = n.Path) := List.mem_filter.2 ⟨hr, hrp⟩
    cases hf : db.filter (fun r => r.Path = n.Path) with
    | nil => rw [hf] at hmem; cases hmem
    | cons a l =>
      rw [hf] at hle
      cases l with
      | nil => rfl
      | cons b l => simp at hle
  · unfold TrackNote
    rw [if_neg ha, List.filter_append,
      filter_path_eq_nil db n.Path (fun hm => ha ((any_path_iff db n.Path).2 hm))]
    simp

theorem TrackNote_err (db : Table) (n : Note) : (TrackNote db n).2 = none := by
  unfold TrackNote
  split <;> rfl

theorem TrackNote_of_any (db : Table) (n : Note)
    (h : db.any (fun r => r.Path = n.Path) = true) :
    TrackNote db n = (db.map (fun r =>
      if r.Path = n.Path then
        { r with ExpiryDatetime := n.ExpiryDatetime, TrackedAt := n.TrackedAt }
      else r), none) := by
  unfold TrackNote
  rw [if_pos h]

theorem TrackNote_of_not_any (db : Table) (n : Note)
    (h : ¬ db.any (fun r => r.Path = n.Path) = true) :
    TrackNote db n = (db ++ [n], none) := by
  unfold TrackNote
  rw [if_neg h]

theorem TrackNote_idem (db : Table) (n : Note) :
    TrackNote (TrackNote db n).1 n = TrackNote db n := by
  have hany : (TrackNote db n).1.any (fun r => r.Path = n.Path) = true :=
    (any_path_iff _ _).2 (TrackNote_mem_path db n)
  rw [TrackNote_of_any _ n hany]
  by_cases ha : db.any (fun r => r.Path = n.Path) = true
  · rw [TrackNote_of_any db n ha]
    simp only [List.map_map]
    congr 1
    apply List.map_congr_left
    intro r _
    simp only [Function.comp]
    by_cases hp : r.Path = n.Path
    · simp [hp]
    · simp [hp]
  · rw [TrackNote_of_not_any db n ha]
    simp only [List.map_append, List.map_cons, List.map_nil, if_true]
    congr 2
    have hno : ∀ r ∈ db, ¬ r.Path = n.Path := by
      intro r hr hp
      exact ha (List.any_eq_true.2 ⟨r, hr, by simpa using hp⟩)
    conv_rhs => rw [← List.map_id db]
    apply List.map_congr_left
    intro r hr
    rw [if_neg (hno r hr)]
    rfl

/-- C6: on a table that satisfies its primary key, `TrackNote n1` followed
by `TrackNote n2` for the same path leaves exactly one row with that path,
and that row carries the `ExpiryDatetime` and `TrackedAt` of `n2`; the
second call adds no row; both calls succeed; and when `n1 = n2` the second
call leaves the table unchanged. -/
theorem TrackNote_overwrite (db : Table) (n1 n2 : Note) (hwf : Table.WF db)
    (hp : n1.Path = n2.Path) :
    (TrackNote (TrackNote db n1).1 n2).1.filter (fun r => r.Path = n2.Path) = [n2] ∧
    (TrackNote (TrackNote db n1).1 n2).1.map Note.Path = (TrackNote db n1).1.map Note.Path ∧
    (TrackNote db n1).2 = none ∧ (TrackNote (TrackNote db n1).1 n2).2 = none ∧
    (n1 = n2 → (TrackNote (TrackNote db n1).1 n2).1 = (TrackNote db n1).1) := by
  refine ⟨TrackNote_filter_self _ n2 (TrackNote_WF db n1 hwf), ?_, ?_, ?_, ?_⟩
  · apply TrackNote_paths_of_any
    rw [any_path_iff, ← hp]
    exact TrackNote_mem_path db n1
  · exact TrackNote_err _ _
  · exact TrackNote_err _ _
  · rintro rfl
    rw [TrackNote_idem]

/-- Witness of C6: one tracked note, tracked again with a later expiry. -/
theorem TrackNote_overwrite_witness :
    Table.WF sampleTable ∧
    (TrackNote (TrackNote sampleTable ⟨"b.md".toList, 5, 3⟩).1 ⟨"b.md".toList, 9, 4⟩).1
      = [⟨"a.md".toList, 1, 0⟩, ⟨"b.md".toList, 9, 4⟩, ⟨"c.md".toList, 10, 0⟩,
         ⟨"d.md".toList, 11, 0⟩] ∧
    (TrackNote (TrackNote sampleTable ⟨"b.md".toList, 5, 3⟩).1 ⟨"b.md".toList, 9, 4⟩).1.filter
      (fun r => r.Path = "b.md".toList) = [⟨"b.md".toList, 9, 4⟩] :=
  ⟨by decide, by decide,
    (TrackNote_overwrite sampleTable ⟨"b.md".toList, 5, 3⟩ ⟨"b.md".toList, 9, 4⟩
      (by decide) rfl).1⟩

/-- C7: `GetExpired` succeeds and returns a stored row if and only if its
`ExpiryDatetime` is at most the instant read from the clock; a row that
expires exactly at that instant is returned; the rows returned are rows of
the table, each returned once. -/
theorem GetExpired_spec (db : Table) (clk : Clock) :
    (GetExpired db clk).1.2 = none ∧
    (∀ r, r ∈ (GetExpired db clk).1.1 ↔ r ∈ db ∧ r.ExpiryDatetime ≤ clk.readings clk.reads) ∧
    (∀ r, r ∈ db → r.ExpiryDatetime = clk.readings clk.reads → r ∈ (GetExpired db clk).1.1) ∧
    (GetExpired db clk).1.1.Sublist db ∧
    (Table.WF db → ((GetExpired db clk).1.1.map Note.Path).Nodup) := by
  have hres : (GetExpired db clk).1.1
      = db.filter (fun r => r.ExpiryDatetime ≤ clk.readings clk.reads) := rfl
  refine ⟨rfl, ?_, ?_, ?_, ?_⟩
  · intro r
    rw [hres, List.mem_filter]
    simp
  · intro r hr he
    rw [hres, List.mem_filter]
    exact ⟨hr, by simp [he]⟩
  · rw [hres]
    exact List.filter_sublist db
  · intro hwf
    rw [hres]
    exact List.Nodup.sublist ((List.filter_sublist db).map Note.Path) hwf

/-- Witness of C7: at the instant 2 the notes expiring at 1 and 2 are
expired, those expiring at 10 and 11 are not. -/
theorem GetExpired_spec_witness :
    Table.WF sampleTable ∧
    (GetExpired sampleTable (frozenClock 2)).1.1
      = [⟨"a.md".toList, 1, 0⟩, ⟨"b.md".toList, 2, 0⟩] ∧
    ((GetExpired sampleTable (frozenClock 2)).1.1.map Note.Path).Nodup :=
  ⟨by decide, by decide, (GetExpired_spec sampleTable (frozenClock 2)).2.2.2.2 (by decide)⟩

theorem GetExpiringWithin_result (db : Table) (w : Int) (clk : Clock) :
    (GetExpiringWithin db w clk).1.1
      = (db.filter (fun r => clk.readings (clk.reads + 1) < r.ExpiryDatetime ∧
          r.ExpiryDatetime ≤ clk.readings clk.reads + w)).insertionSort expiryLE := rfl

/-- C8 (amended): `GetExpiringWithin w` reads the clock twice, `t1` for the
deadline and then `t2` for the lower bound; it succeeds and returns exactly
the stored rows with `t2 < ExpiryDatetime <= t1 + w`, each once, sorted
ascending by `ExpiryDatetime`; when both readings are one instant `now`
these are the rows with `now < ExpiryDatetime <= now + w`. -/
theorem GetExpiringWithin_spec (db : Table) (w : Int) (clk : Clock) :
    (GetExpiringWithin db w clk).1.2 = none ∧
    (∀ r, r ∈ (GetExpiringWithin db w clk).1.1 ↔
      r ∈ db ∧ clk.readings (clk.reads + 1) < r.ExpiryDatetime ∧
        r.ExpiryDatetime ≤ clk.readings clk.reads + w) ∧
    ((GetExpiringWithin db w clk).1.1).Perm
      (db.filter (fun r => clk.readings (clk.reads + 1) < r.ExpiryDatetime ∧
        r.ExpiryDatetime ≤ clk.readings clk.reads + w)) ∧
    ((GetExpiringWithin db w clk).1.1).Sorted expiryLE ∧
    (clk.readings (clk.reads + 1) = clk.readings clk.reads →
      ∀ r, r ∈ (GetExpiringWithin db w clk).1.1 ↔
        r ∈ db ∧ clk.readings clk.reads < r.ExpiryDatetime ∧
          r.ExpiryDatetime ≤ clk.readings clk.reads + w) := by
  have hmem : ∀ r, r ∈ (GetExpiringWithin db w clk).1.1 ↔
      r ∈ db ∧ clk.readings (clk.reads + 1) < r.ExpiryDatetime ∧
        r.ExpiryDatetime ≤ clk.readings clk.reads + w := by
    intro r
    rw [GetExpiringWithin_result, (List.perm_insertionSort expiryLE _).mem_iff, List.mem_filter]
    simp
  refine ⟨rfl, hmem, ?_, ?_, ?_⟩
  · rw [GetExpiringWithin_result]
    exact List.perm_insertionSort expiryLE _
  · rw [GetExpiringWithin_result]
    exact List.sorted_insertionSort expiryLE _
  · intro heq r
    rw [hmem r, heq]

/-- Witness of C8: with both readings at the instant 1 and a window of 10
the notes expiring at 2, 10 and 11 are returned, soonest first. -/
theorem GetExpiringWithin_spec_witness :
    (frozenClock 1).readings ((frozenClock 1).reads + 1)
      = (frozenClock 1).readings (frozenClock 1).reads ∧
    (GetExpiringWithin sampleTable 10 (frozenClock 1)).1.1
      = [⟨"b.md".toList, 2, 0⟩, ⟨"c.md".toList, 10, 0⟩, ⟨"d.md".toList, 11, 0⟩] ∧
    (∀ r, r ∈ (GetExpiringWithin sampleTable 10 (frozenClock 1)).1.1 ↔
        r ∈ sampleTable ∧ (frozenClock 1).readings (frozenClock 1).reads < r.ExpiryDatetime ∧
          r.ExpiryDatetime ≤ (frozenClock 1).readings (frozenClock 1).reads + 10) :=
  ⟨rfl, by decide, (GetExpiringWithin_spec sampleTable 10 (frozenClock 1)).2.2.2.2 rfl⟩

/-- Counterexample to C8 as stated: when the clock advances between the
two readings (0, then 1) and the window is 10, the rows returned from the
table expiring at 1, 2, 10 and 11 are those expiring at 2 and 10, and no
single instant `now` makes them the rows with `now < ExpiryDatetime <=
now + 10`. -/
theorem GetExpiringWithin_spec_counterexample :
    (GetExpiringWithin sampleTable 10 (tickingClock 0)).1.1
      = [⟨"b.md".toList, 2, 0⟩, ⟨"c.md".toList, 10, 0⟩] ∧
    ¬ ∃ now : Time, ∀ r, r ∈ (GetExpiringWithin sampleTable 10 (tickingClock 0)).1.1 ↔
      r ∈ sampleTable ∧ now < r.ExpiryDatetime ∧ r.ExpiryDatetime ≤ now + 10 := by
  have hres : (GetExpiringWithin sampleTable 10 (tickingClock 0)).1.1
      = [⟨"b.md".toList, 2, 0⟩, ⟨"c.md".toList, 10, 0⟩] := by decide
  refine ⟨hres, ?_⟩
  rintro ⟨now, h⟩
  rw [hres] at h
  have hb := (h ⟨"b.md".toList, 2, 0⟩).1 (by decide)
  have ha := (h ⟨"a.md".toList, 1, 0⟩).not.1 (by decide)
  have hd := (h ⟨"d.md".toList, 11, 0⟩).not.1 (by decide)
  have hma : (⟨"a.md".toList, 1, 0⟩ : Note) ∈ sampleTable := by decide
  have hmd : (⟨"d.md".toList, 11, 0⟩ : Note) ∈ sampleTable := by decide
  simp only [hma, hmd, true_and, not_and, not_le] at ha hd
  have hb1 : now < 2 := hb.2.1
  have hb2 : 2 ≤ now + 10 := hb.2.2
  have hd2 : now + 10 < 11 := hd (by linarith)
  have ha2 : now + 10 < 1 := ha (by linarith)
  linarith

/-- C9: `DeleteNote p` succeeds and leaves no row with the path `p`; when
the table held no row with the path `p` it is left unchanged. -/
theorem DeleteNote_spec (db : Table) (p : GoString) :
    (DeleteNote db p).2 = none ∧
    (∀ r, r ∈ (DeleteNote db p).1 → r.Path ≠ p) ∧
    ((∀ r, r ∈ db → r.Path ≠ p) → (DeleteNote db p).1 = db) := by
  refine ⟨rfl, ?_, ?_⟩
  · intro r hr
    have := (List.mem_filter.1 hr).2
    simpa using this
  · intro h
    unfold DeleteNote
    simp only
    rw [List.filter_eq_self]
    intro r hr
    simpa using h r hr

/-- Witness of C9: deleting a path the table does not hold. -/
theorem DeleteNote_spec_witness :
    (∀ r, r ∈ sampleTable → r.Path ≠ "z.md".toList) ∧
    (DeleteNote sampleTable "z.md".toList).1 = sampleTable ∧
    (DeleteNote sampleTable "b.md".toList).1
      = [⟨"a.md".toList, 1, 0⟩, ⟨"c.md".toList, 10, 0⟩, ⟨"d.md".toList, 11, 0⟩] :=
  ⟨by decide, (DeleteNote_spec sampleTable "z.md".toList).2.2 (by decide), by decide⟩

/-! ## `parseNote` -/

theorem extractFrontmatter_err (content : GoString) :
    (extractFrontmatter content).2.2 = none := by
  unfold extractFrontmatter
  split
  · rfl
  · simp only
    split <;> rfl

/-- C10 (amended): for a note file whose header decodes to a string
`expiry_date` that `parseDuration` accepts with duration `d`, `parseNote`
emits a note for that path whose `ExpiryDatetime` is `t1 + d` and whose
`TrackedAt` is `t2`, where `t1` and `t2` are two successive readings of the
clock; `ExpiryDatetime = TrackedAt + d` holds exactly when the two readings
are the same instant. -/
theorem parseNote_tracked (readFile : FileReader) (unmarshal : YamlDecoder)
    (filePath : GoString) (clk : Clock) (content : GoString) (data : YamlMap)
    (expiryStr : GoString) (d : Int)
    (hr : readFile filePath = .ok content)
    (hy : unmarshal (extractFrontmatter content).1 = .ok data)
    (hk : data "expiry_date".toList = some (.str expiryStr))
    (hd : parseDuration expiryStr = .ok d) :
    ∃ n : Note, (parseNote readFile unmarshal filePath clk).1 = .ok (some n) ∧
      (parseNote readFile unmarshal filePath clk).2.reads = clk.reads + 2 ∧
      n.Path = filePath ∧
      n.ExpiryDatetime = clk.readings clk.reads + d ∧
      n.TrackedAt = clk.readings (clk.reads + 1) ∧
      (n.ExpiryDatetime = n.TrackedAt + d ↔
        clk.readings clk.reads = clk.readings (clk.reads + 1)) := by
  have he := extractFrontmatter_err content
  rcases hx : extractFrontmatter content with ⟨fm, body, e⟩
  rw [hx] at he hy
  simp only at he hy
  subst he
  have hp : parseNote readFile unmarshal filePath clk
      = (.ok (some { Path := filePath, ExpiryDatetime := clk.readings clk.reads + d,
                     TrackedAt := clk.readings (clk.reads + 1) }),
          { clk with reads := clk.reads + 1 + 1 }) := by
    unfold parseNote
    simp only [hr, hx, hy, hk, hd]
    rfl
  refine ⟨_, by rw [hp], by rw [hp], rfl, rfl, rfl, ?_⟩
  simp only
  constructor
  · intro h; linarith
  · intro h; rw [h]

/-- Witness of C10: the sample note file, scanned while the clock stands
still at the instant 1000. -/
theorem parseNote_tracked_witness :
    sampleReader "inbox/a.md".toList = .ok sampleFile ∧
    (extractFrontmatter sampleFile).1 = "expiry_date: 7d".toList ∧
    parseDuration "7d".toList = .ok 604800000000000 ∧
    (parseNote sampleReader sampleDecoder "inbox/a.md".toList (frozenClock 1000)).1
      = .ok (some ⟨"inbox/a.md".toList, 604800000001000, 1000⟩) ∧
    ∃ n : Note,
      (parseNote sampleReader sampleDecoder "inbox/a.md".toList (frozenClock 1000)).1
        = .ok (some n) ∧
      (parseNote sampleReader sampleDecoder "inbox/a.md".toList (frozenClock 1000)).2.reads
        = (frozenClock 1000).reads + 2 ∧
      n.Path = "inbox/a.md".toList ∧
      n.ExpiryDatetime
        = (frozenClock 1000).readings (frozenClock 1000).reads + 604800000000000 ∧
      n.TrackedAt = (frozenClock 1000).readings ((frozenClock 1000).reads + 1) ∧
      (n.ExpiryDatetime = n.TrackedAt + 604800000000000 ↔
        (frozenClock 1000).readings (frozenClock 1000).reads
          = (frozenClock 1000).readings ((frozenClock 1000).reads + 1)) :=
  ⟨rfl, by decide, by decide, by decide,
    parseNote_tracked sampleReader sampleDecoder "inbox/a.md".toList (frozenClock 1000)
      sampleFile (fun k => if k = "expiry_date".toList then some (.str "7d".toList) else none)
      "7d".toList 604800000000000 rfl (by unfold sampleDecoder; rw [if_pos (by decide)])
      (by decide) (by decide)⟩

/-- Counterexample to C10 as stated: when the clock advances between the
two readings (1000, then 1001) the note emitted for the sample file has
`ExpiryDatetime = 1000 + d` and `TrackedAt = 1001`, so no single instant
`now` gives `TrackedAt = now` and `ExpiryDatetime = now + d`. -/
theorem parseNote_tracked_counterexample :
    parseDuration "7d".toList = .ok 604800000000000 ∧
    (parseNote sampleReader sampleDecoder "inbox/a.md".toList (tickingClock 1000)).1
      = .ok (some ⟨"inbox/a.md".toList, 604800000001000, 1001⟩) ∧
    (604800000001000 : Int) ≠ 1001 + 604800000000000 ∧
    ¬ ∃ now : Time, (1001 : Int) = now ∧ (604800000001000 : Int) = now + 604800000000000 := by
  refine ⟨by decide, by decide, by decide, ?_⟩
  rintro ⟨now, h1, h2⟩
  rw [← h1] at h2
  revert h2
  decide

/-! ## `parseDuration`: zero, the unit branch, overflow -/

theorem parseDuration_of_trim (s ds : GoString) (u : Char) (ht : TrimSpace s = ds ++ [u])
    (h0 : ds ≠ []) (hd : ∀ c ∈ ds, c.isDigit = true) (hu : u ∈ unitClass) :
    parseDuration s =
      if u = 'd' then .ok (mul64 (mul64 (Atoi ds).1 24) Hour)
      else if u = 'h' then .ok (mul64 (Atoi ds).1 Hour)
      else if u = 'm' then .ok (mul64 (Atoi ds).1 Minute)
      else .ok (mul64 (Atoi ds).1 Second) := by
  unfold parseDuration
  simp only [ht, FindStringSubmatch_append ds u h0 hd hu]
  simp only [unitClass, List.mem_cons, List.mem_singleton, List.not_mem_nil, or_false] at hu
  rcases hu with rfl | rfl | rfl | rfl <;> simp [List.getD]

theorem decimalValue_zeros (k : Nat) : decimalValue (List.replicate k '0') = 0 := by
  unfold decimalValue
  induction k with
  | zero => rfl
  | succ k ih =>
    rw [List.replicate_succ, List.foldl_cons]
    exact ih

theorem wrap64_zero : wrap64 0 = 0 := by decide

/-- C15 (amended): `parseDuration` accepts every numeral of one or more
decimal digits, zero included: for every unit letter of `d`, `h`, `m`,
`s` and every numeral made of zeros only, it succeeds and returns the
zero-length span. -/
theorem parseDuration_zero (k : Nat) (u : Char) (hu : u ∈ unitClass) :
    parseDuration (List.replicate (k + 1) '0' ++ [u]) = .ok 0 := by
  have h0 : List.replicate (k + 1) '0' ≠ [] := by simp
  have hd : ∀ c ∈ List.replicate (k + 1) '0', c.isDigit = true := by
    intro c hc
    rw [(List.mem_replicate.1 hc).2]
    rfl
  have hat := Atoi_digits _ h0 hd
  rw [decimalValue_zeros] at hat
  have hz : (Atoi (List.replicate (k + 1) '0')).1 = 0 := by
    rw [hat]
    decide
  rw [parseDuration_append _ u h0 hd hu, hz]
  simp only [mul64, zero_mul, wrap64_zero]
  split_ifs <;> rfl

/-- Witness of C15: `"00h"` is accepted as the zero-length span. -/
theorem parseDuration_zero_witness :
    'h' ∈ unitClass ∧ List.replicate (1 + 1) '0' ++ ['h'] = "00h".toList ∧
    parseDuration (List.replicate (1 + 1) '0' ++ ['h']) = .ok 0 :=
  ⟨by decide, by decide, parseDuration_zero 1 'h' (by decide)⟩

/-- Counterexample to C15 as stated: `"0d"` and `"00s"` do not fail with
the invalid-format error, they yield the zero-length span. -/
theorem parseDuration_zero_counterexample :
    decimalValue "0".toList = 0 ∧ decimalValue "00".toList = 0 ∧
    parseDuration "0d".toList = .ok 0 ∧
    parseDuration "0d".toList ≠ .error (.invalidFormat "0d".toList) ∧
    parseDuration "00s".toList = .ok 0 ∧
    parseDuration "00s".toList ≠ .error (.invalidFormat "00s".toList) := by
  refine ⟨by decide, by decide, by decide, by decide, by decide, by decide⟩

/-- C16: the unknown-unit branch of `parseDuration` is unreachable: on
every input it either succeeds or fails with the invalid-format error, and
it never returns the unknown-unit error. -/
theorem parseDuration_no_unknownUnit (s : GoString) :
    ((∃ d, parseDuration s = .ok d) ∨
      parseDuration s = .error (.invalidFormat (TrimSpace s))) ∧
    (∀ unit, parseDuration s ≠ .error (.unknownUnit unit)) := by
  have hcases : (∃ d, parseDuration s = .ok d) ∨
      parseDuration s = .error (.invalidFormat (TrimSpace s)) := by
    by_cases hg : DurationGrammar (TrimSpace s)
    · obtain ⟨ds, u, h0, hd, hu, ht⟩ := hg
      left
      rw [parseDuration_of_trim s ds u ht h0 hd hu]
      split_ifs <;> exact ⟨_, rfl⟩
    · right
      unfold parseDuration
      simp only [FindStringSubmatch_nil_of_not _ hg]
      rfl
  refine ⟨hcases, ?_⟩
  intro unit h
  rcases hcases with ⟨d, hd⟩ | he
  · rw [hd] at h; cases h
  · rw [he] at h; cases h

/-- C17 (failing input): the numeral `9223372036854775807` with the unit
`d` is accepted, and the product wraps to the negative duration
`-86400000000000` nanoseconds (minus one day); the numeral
`99999999999999999999`, out of range for `strconv.Atoi`, gives the same. -/
theorem parseDuration_negative :
    parseDuration "9223372036854775807d".toList = .ok (-86400000000000) ∧
    parseDuration "99999999999999999999d".toList = .ok (-86400000000000) ∧
    (-86400000000000 : Int) < 0 ∧
    ¬ (∀ (s : GoString) (d : Int), parseDuration s = .ok d → 0 ≤ d) := by
  refine ⟨by decide, by decide, by decide, ?_⟩
  intro h
  have := h "9223372036854775807d".toList (-86400000000000) (by decide)
  revert this
  decide

/-! ## The store: frame and invariant -/

theorem DeleteNote_WF (db : Table) (p : GoString) (h : Table.WF db) :
    Table.WF (DeleteNote db p).1 := by
  unfold Table.WF at h ⊢
  exact List.Nodup.sublist ((List.filter_sublist db).map Note.Path) h

theorem applyOp_WF (db : Table) (op : StoreOp) (h : Table.WF db) : Table.WF (applyOp db op) := by
  cases op with
  | track note => exact TrackNote_WF db note h
  | delete path => exact DeleteNote_WF db path h
  | getExpired clk => exact h
  | getExpiringWithin w clk => exact h

theorem runOps_WF (ops : List StoreOp) : ∀ db : Table, Table.WF db → Table.WF (runOps db ops) := by
  induction ops with
  | nil => intro db h; exact h
  | cons op rest ih =>
    intro db h
    exact ih (applyOp db op) (applyOp_WF db op h)

theorem GetExpiringWithin_paths_nodup (db : Table) (w : Int) (clk : Clock)
    (h : Table.WF db) : ((GetExpiringWithin db w clk).1.1.map Note.Path).Nodup := by
  rw [GetExpiringWithin_result]
  have hp := (List.perm_insertionSort expiryLE
    (db.filter (fun r => clk.readings (clk.reads + 1) < r.ExpiryDatetime ∧
      r.ExpiryDatetime ≤ clk.readings clk.reads + w))).map Note.Path
  rw [hp.nodup_iff]
  exact List.Nodup.sublist ((List.filter_sublist db).map Note.Path) h

theorem GetExpired_paths_nodup (db : Table) (clk : Clock) (h : Table.WF db) :
    ((GetExpired db clk).1.1.map Note.Path).Nodup := by
  have hres : (GetExpired db clk).1.1
      = db.filter (fun r => r.ExpiryDatetime ≤ clk.readings clk.reads) := rfl
  rw [hres]
  exact List.Nodup.sublist ((List.filter_sublist db).map Note.Path) h

/-- C14: starting from the empty table, after any sequence of `TrackNote`
and `DeleteNote` calls (interleaved with the two queries, which leave the
table as it is) the table holds at most one row per path, and neither
`GetExpired` nor `GetExpiringWithin` returns two rows with the same path. -/
theorem store_invariant (ops : List StoreOp) :
    Table.WF (runOps Table.empty ops) ∧
    (∀ p, (Table.lookup (runOps Table.empty ops) p).length ≤ 1) ∧
    (∀ clk, ((GetExpired (runOps Table.empty ops) clk).1.1.map Note.Path).Nodup) ∧
    (∀ w clk, ((GetExpiringWithin (runOps Table.empty ops) w clk).1.1.map Note.Path).Nodup) ∧
    (∀ db clk, applyOp db (.getExpired clk) = db) ∧
    (∀ db w clk, applyOp db (.getExpiringWithin w clk) = db) := by
  have hwf : Table.WF (runOps Table.empty ops) :=
    runOps_WF ops Table.empty (by unfold Table.WF Table.empty; exact List.nodup_nil)
  exact ⟨hwf, fun p => filter_path_length_le_one _ p hwf,
    fun clk => GetExpired_paths_nodup _ clk hwf,
    fun w clk => GetExpiringWithin_paths_nodup _ w clk hwf,
    fun _ _ => rfl, fun _ _ _ => rfl⟩

/-- C19: `TrackNote` and `DeleteNote` touch only the row of their own
path: the rows stored under any other path are the same after the call as
before it. -/
theorem store_frame (db : Table) (n : Note) (p q : GoString) :
    (q ≠ n.Path → Table.lookup (TrackNote db n).1 q = Table.lookup db q) ∧
    (p ≠ q → Table.lookup (DeleteNote db p).1 q = Table.lookup db q) := by
  constructor
  · intro hq
    unfold Table.lookup
    by_cases ha : db.any (fun r => r.Path = n.Path) = true
    · rw [TrackNote_of_any db n ha]
      simp only
      induction db with
      | nil => rfl
      | cons r t ih =>
        have iht : List.filter (fun r => decide (r.Path = q))
            (List.map (fun r => if r.Path = n.Path then
              { r with ExpiryDatetime := n.ExpiryDatetime, TrackedAt := n.TrackedAt }
              else r) t) = List.filter (fun r => decide (r.Path = q)) t := by
          by_cases hat : t.any (fun r => r.Path = n.Path) = true
          · exact ih hat
          · have hno : ∀ r ∈ t, ¬ r.Path = n.Path := by
              intro r hr hp
              exact hat (List.any_eq_true.2 ⟨r, hr, by simpa using hp⟩)
            congr 1
            conv_rhs => rw [← List.map_id t]
            apply List.map_congr_left
            intro r hr
            rw [if_neg (hno r hr)]
            rfl
        rw [List.map_cons]
        by_cases hp : r.Path = n.Path
        · have hrq : ¬ r.Path = q := fun h => hq (by rw [← h, hp])
          rw [if_pos hp, List.filter_cons_of_neg (by simpa using hrq),
            List.filter_cons_of_neg (by simpa using hrq), iht]
        · rw [if_neg hp]
          by_cases hrq : r.Path = q
          · rw [List.filter_cons_of_pos (by simpa using hrq),
              List.filter_cons_of_pos (by simpa using hrq), iht]
          · rw [List.filter_cons_of_neg (by simpa using hrq),
              List.filter_cons_of_neg (by simpa using hrq), iht]
    · rw [TrackNote_of_not_any db n ha]
      simp only [List.filter_append]
      have : List.filter (fun r => decide (r.Path = q)) [n] = [] := by
        rw [List.filter_cons_of_neg (by simpa using fun h => hq h.symm)]
        rfl
      rw [this, List.append_nil]
  · intro hpq
    unfold Table.lookup DeleteNote
    simp only [List.filter_filter]
    apply List.filter_congr
    intro r _
    by_cases hrq : r.Path = q
    · have : ¬ q = p := fun h => hpq h.symm
      simp [hrq, this]
    · simp [hrq]

/-- Witness of C19: tracking or deleting `b.md` leaves the row of `c.md`. -/
theorem store_frame_witness :
    Table.lookup (TrackNote sampleTable ⟨"b.md".toList, 9, 4⟩).1 "c.md".toList
      = Table.lookup sampleTable "c.md".toList ∧
    Table.lookup (DeleteNote sampleTable "b.md".toList).1 "c.md".toList
      = Table.lookup sampleTable "c.md".toList ∧
    Table.lookup sampleTable "c.md".toList = [⟨"c.md".toList, 10, 0⟩] :=
  ⟨(store_frame sampleTable ⟨"b.md".toList, 9, 4⟩ "b.md".toList "c.md".toList).1 (by decide),
    (store_frame sampleTable ⟨"b.md".toList, 9, 4⟩ "b.md".toList "c.md".toList).2 (by decide),
    by decide⟩

/-! ## The two queries side by side -/

theorem GetExpired_mem (db : Table) (clk : Clock) (r : Note) :
    r ∈ (GetExpired db clk).1.1 ↔ r ∈ db ∧ r.ExpiryDatetime ≤ clk.readings clk.reads := by
  have hres : (GetExpired db clk).1.1
      = db.filter (fun r => r.ExpiryDatetime ≤ clk.readings clk.reads) := rfl
  rw [hres, List.mem_filter]
  simp

theorem GetExpiringWithin_mem (db : Table) (w : Int) (clk : Clock) (r : Note) :
    r ∈ (GetExpiringWithin db w clk).1.1 ↔
      r ∈ db ∧ clk.readings (clk.reads + 1) < r.ExpiryDatetime ∧
        r.ExpiryDatetime ≤ clk.readings clk.reads + w := by
  rw [GetExpiringWithin_result, (List.perm_insertionSort expiryLE _).mem_iff, List.mem_filter]
  simp

/-- C18: with `GetExpired` reading the clock `c1` and `GetExpiringWithin`
reading the clock `c2`: when the lower bound read by `GetExpiringWithin`
is not earlier than the instant read by `GetExpired` (the same instant, or
a later one) no row is in both results; and when all readings are one
instant `now` and the window `w` is not negative, every stored row is in
exactly one of the expired result, the expiring-within result, and the
rows with `ExpiryDatetime > now + w`. -/
theorem expired_expiring_partition (db : Table) (w : Int) (c1 c2 : Clock) :
    (c1.readings c1.reads ≤ c2.readings (c2.reads + 1) →
      ∀ r, ¬ (r ∈ (GetExpired db c1).1.1 ∧ r ∈ (GetExpiringWithin db w c2).1.1)) ∧
    (0 ≤ w → c2.readings c2.reads = c1.readings c1.reads →
      c2.readings (c2.reads + 1) = c1.readings c1.reads →
      ∀ r, r ∈ db →
        (r ∈ (GetExpired db c1).1.1 ∧ r ∉ (GetExpiringWithin db w c2).1.1 ∧
          ¬ c1.readings c1.reads + w < r.ExpiryDatetime) ∨
        (r ∉ (GetExpired db c1).1.1 ∧ r ∈ (GetExpiringWithin db w c2).1.1 ∧
          ¬ c1.readings c1.reads + w < r.ExpiryDatetime) ∨
        (r ∉ (GetExpired db c1).1.1 ∧ r ∉ (GetExpiringWithin db w c2).1.1 ∧
          c1.readings c1.reads + w < r.ExpiryDatetime)) := by
  constructor
  · intro hle r hr
    rw [GetExpired_mem, GetExpiringWithin_mem] at hr
    obtain ⟨⟨_, h1⟩, _, h2, _⟩ := hr
    linarith
  · intro hw ha hb r hr
    simp only [GetExpired_mem, GetExpiringWithin_mem, ha, hb, hr, true_and]
    rcases le_or_lt r.ExpiryDatetime (c1.readings c1.reads) with h1 | h1
    · left
      refine ⟨h1, ?_, ?_⟩
      · intro h; linarith [h.1]
      · intro h; linarith
    · rcases le_or_lt r.ExpiryDatetime (c1.readings c1.reads + w) with h2 | h2
      · right; left
        refine ⟨by intro h; linarith, ⟨h1, h2⟩, by intro h; linarith⟩
      · right; right
        refine ⟨by intro h; linarith, by intro h; linarith [h.2], h2⟩

/-- Witness of C18: at the instant 2 with a window of 8 the sample table
splits into the rows expiring at 1 and 2 (expired), the row expiring at 10
(expiring within the window) and the row expiring at 11 (later). -/
theorem expired_expiring_partition_witness :
    (GetExpired sampleTable (frozenClock 2)).1.1
      = [⟨"a.md".toList, 1, 0⟩, ⟨"b.md".toList, 2, 0⟩] ∧
    (GetExpiringWithin sampleTable 8 (frozenClock 2)).1.1 = [⟨"c.md".toList, 10, 0⟩] ∧
    (∀ r, ¬ (r ∈ (GetExpired sampleTable (frozenClock 2)).1.1 ∧
      r ∈ (GetExpiringWithin sampleTable 8 (frozenClock 2)).1.1)) ∧
    (∀ r, ¬ (r ∈ (GetExpired sampleTable (frozenClock 2)).1.1 ∧
      r ∈ (GetExpiringWithin sampleTable 8 (tickingClock 5)).1.1)) :=
  ⟨by decide, by decide,
    (expired_expiring_partition sampleTable 8 (frozenClock 2) (frozenClock 2)).1 (by decide),
    (expired_expiring_partition sampleTable 8 (frozenClock 2) (tickingClock 5)).1 (by decide)⟩

/-! ## The reminder file -/

theorem reminderLoop_eq (F : Formatter) : ∀ (notes : List Note) (content : GoString)
    (clk : Clock), (reminderLoop F notes content clk).1
      = content ++ (bulletLines F notes clk).flatten := by
  intro notes
  induction notes with
  | nil => intro content clk; simp [reminderLoop, bulletLines]
  | cons note rest ih =>
    intro content clk
    unfold reminderLoop
    simp only
    rw [ih]
    simp [bulletLines, List.append_assoc]

theorem bulletLines_length (F : Formatter) : ∀ (notes : List Note) (clk : Clock),
    (bulletLines F notes clk).length = notes.length := by
  intro notes
  induction notes with
  | nil => intro clk; rfl
  | cons note rest ih => intro clk; simp [bulletLines, ih]

theorem reminderContent_eq (F : Formatter) (notes : List Note) (clk : Clock) :
    (reminderContent F notes clk).1
      = reminderPreamble F (clk.readings clk.reads)
          ++ (bulletLines F notes { clk with reads := clk.reads + 1 }).flatten := by
  unfold reminderContent
  simp only [Clock.Now]
  rw [reminderLoop_eq]
  rfl

theorem reminderContent_shape (F : Formatter) (notes : List Note) (clk : Clock) :
    ∃ b, (reminderContent F notes clk).1 = marker ++ reminderHeaderBlock ++ marker ++ b := by
  refine ⟨"\n\n".toList ++ "# Notes Expiring Soon\n\n".toList ++
    ("Last updated: ".toList ++ F.Format "2006-01-02 15:04:05".toList (clk.readings clk.reads)
      ++ "\n\n".toList) ++ (bulletLines F notes { clk with reads := clk.reads + 1 }).flatten, ?_⟩
  rw [reminderContent_eq]
  unfold reminderPreamble marker reminderHeaderBlock
  simp [List.append_assoc]

theorem prefix_append_iff (m l b : GoString) (h : m.length ≤ l.length) :
    m <+: l ++ b ↔ m <+: l := by
  constructor
  · intro hm
    exact List.prefix_of_prefix_length_le hm (List.prefix_append l b) h
  · intro hm
    exact hm.trans (List.prefix_append l b)

theorem reminderHeaderBlock_first (b : GoString) :
    ∀ i, i < reminderHeaderBlock.length →
      ¬ marker <+: (reminderHeaderBlock ++ marker ++ b).drop i := by
  intro i hi
  have hlen : i ≤ (reminderHeaderBlock ++ marker).length := by
    rw [List.length_append]; omega
  rw [List.drop_append_of_le_length hlen]
  rw [prefix_append_iff]
  · have hall : ∀ j, j < reminderHeaderBlock.length →
        ¬ marker <+: (reminderHeaderBlock ++ marker).drop j := by decide
    exact hall i hi
  · rw [List.length_drop, List.length_append]
    have : marker.length = 3 := rfl
    omega

theorem extractFrontmatter_reminder (F : Formatter) (notes : List Note) (clk : Clock) :
    (extractFrontmatter (reminderContent F notes clk).1).1 = reminderHeader := by
  obtain ⟨b, hb⟩ := reminderContent_shape F notes clk
  rw [hb]
  have hidx : Index (reminderHeaderBlock ++ marker ++ b) "---".toList
      = (reminderHeaderBlock.length : Int) := by
    have := indexFrom_first marker (by decide) b reminderHeaderBlock 0
      (reminderHeaderBlock_first b)
    simpa [Index, marker] using this
  unfold extractFrontmatter HasPrefix
  have hp : ("---".toList).isPrefixOf (marker ++ reminderHeaderBlock ++ marker ++ b) = true := by
    rw [List.isPrefixOf_iff_prefix, List.append_assoc, List.append_assoc]
    exact List.prefix_append _ _
  have hr : sliceFrom (marker ++ reminderHeaderBlock ++ marker ++ b) 3
      = reminderHeaderBlock ++ marker ++ b := by
    simp [sliceFrom, marker]
  have hne : ((reminderHeaderBlock.length : Int) = -1) = False := by
    simp only [eq_iff_iff, iff_false]; omega
  have ht : sliceTo (reminderHeaderBlock ++ marker ++ b) (reminderHeaderBlock.length : Int)
      = reminderHeaderBlock := by
    simp [sliceTo]
  simp only [hp, hr, hidx, hne, ht, Bool.not_true, Bool.false_eq_true, if_false]
  decide

theorem parseNote_no_key (readFile : FileReader) (unmarshal : YamlDecoder)
    (filePath : GoString) (clk : Clock) (content : GoString) (data : YamlMap)
    (hr : readFile filePath = .ok content)
    (hy : unmarshal (extractFrontmatter content).1 = .ok data)
    (hk : data "expiry_date".toList = none) :
    parseNote readFile unmarshal filePath clk = (.ok none, clk) := by
  have he := extractFrontmatter_err content
  rcases hx : extractFrontmatter content with ⟨fm, body, e⟩
  rw [hx] at he hy
  simp only at he hy
  subst he
  unfold parseNote
  simp only [hr, hx, hy, hk]

/-- C20: for every list of notes, whatever their paths, and every text
the formatting helpers produce, `extractFrontmatter` applied to the
content `writeReminderNote` builds returns exactly the header
`title: Expiry Reminders\ntags:\n  - system`; that header does not
mention `expiry_date`, so with any decoder that finds no such key in it
`parseNote` emits no note for the reminder file; and for a non-empty list
that content is the text `writeReminderNote` hands to `os.WriteFile` for
the path, whose result it returns. -/
theorem reminder_not_tracked (F : Formatter) (notes : List Note) (clk : Clock) :
    (extractFrontmatter (reminderContent F notes clk).1).1 = reminderHeader ∧
    (extractFrontmatter (reminderContent F notes clk).1).2.2 = none ∧
    ¬ "expiry_date".toList <:+: reminderHeader ∧
    (∀ (readFile : FileReader) (unmarshal : YamlDecoder) (p : GoString) (c : Clock)
        (data : YamlMap), readFile p = .ok (reminderContent F notes clk).1 →
        unmarshal reminderHeader = .ok data → data "expiry_date".toList = none →
        parseNote readFile unmarshal p c = (.ok none, c)) ∧
    (∀ (stat : FileStat) (writeFile : FileWriter) (path : GoString) (fs : FileSystem),
        notes ≠ [] →
        writeReminderNote stat writeFile F path notes fs clk
          = ((writeFile fs path (reminderContent F notes clk).1).2,
             (writeFile fs path (reminderContent F notes clk).1).1,
             (reminderContent F notes clk).2)) := by
  refine ⟨extractFrontmatter_reminder F notes clk, extractFrontmatter_err _, by decide, ?_, ?_⟩
  · intro readFile unmarshal p c data hr hy hk
    exact parseNote_no_key readFile unmarshal p c _ data hr
      (by rw [extractFrontmatter_reminder]; exact hy) hk
  · intro stat writeFile path fs hne
    have hlen : ¬ notes.length = 0 := by
      intro h
      exact hne (List.length_eq_zero.1 h)
    unfold writeReminderNote
    rw [if_neg hlen]

set_option maxRecDepth 20000 in
/-- Witness of C20: a reminder for one note whose path contains `---`,
written by an `os.WriteFile` that succeeds. -/
theorem reminder_not_tracked_witness :
    ([⟨"inbox/a---b.md".toList, 10, 0⟩] : List Note) ≠ [] ∧
    (reminderContent sampleFormatter [⟨"inbox/a---b.md".toList, 10, 0⟩] (frozenClock 2)).1
      = ("---\ntitle: Expiry Reminders\ntags:\n  - system\n---\n\n# Notes Expiring Soon\n\n"
          ++ "Last updated: t\n\n- [[inbox/a---b.md]] - Expires in 0d 0h (t)\n").toList ∧
    (writeReminderNote sampleStat sampleWriter sampleFormatter
        "inbox/_expiry-reminders.md".toList [⟨"inbox/a---b.md".toList, 10, 0⟩] reminderFS
        (frozenClock 2)).2.1.files "inbox/_expiry-reminders.md".toList
      = some (reminderContent sampleFormatter [⟨"inbox/a---b.md".toList, 10, 0⟩]
          (frozenClock 2)).1 ∧
    writeReminderNote sampleStat sampleWriter sampleFormatter
        "inbox/_expiry-reminders.md".toList [⟨"inbox/a---b.md".toList, 10, 0⟩] reminderFS
        (frozenClock 2)
      = ((sampleWriter reminderFS "inbox/_expiry-reminders.md".toList
            (reminderContent sampleFormatter [⟨"inbox/a---b.md".toList, 10, 0⟩]
              (frozenClock 2)).1).2,
         (sampleWriter reminderFS "inbox/_expiry-reminders.md".toList
            (reminderContent sampleFormatter [⟨"inbox/a---b.md".toList, 10, 0⟩]
              (frozenClock 2)).1).1,
         (reminderContent sampleFormatter [⟨"inbox/a---b.md".toList, 10, 0⟩]
            (frozenClock 2)).2) :=
  ⟨by decide, by decide, by decide,
    (reminder_not_tracked sampleFormatter [⟨"inbox/a---b.md".toList, 10, 0⟩]
      (frozenClock 2)).2.2.2.2 sampleStat sampleWriter _ reminderFS (by decide)⟩

/-! ## `writeReminderNote` -/

theorem osRemove_of_removable (fs : FileSystem) (p : GoString) (h : removable fs p = true) :
    osRemove fs p
      = ({ fs with files := fun q => if q = p then none else fs.files q }, none) := by
  unfold removable at h
  simp only [Bool.and_eq_true, Bool.not_eq_true', Option.isSome_iff_exists] at h
  obtain ⟨⟨c, hc⟩, hl⟩ := h
  unfold osRemove
  simp [hc, hl]

theorem osRemove_of_not_removable (fs : FileSystem) (p : GoString)
    (h : removable fs p = false) : osRemove fs p = (fs, some (.os p)) := by
  unfold osRemove
  cases hc : fs.files p with
  | none => rfl
  | some c =>
    have hl : fs.locked p = true := by
      unfold removable at h
      simpa [hc] using h
    simp [hl]

theorem writeReminderNote_nil_stat_ok (stat : FileStat) (writeFile : FileWriter)
    (F : Formatter) (path : GoString) (fs : FileSystem) (clk : Clock)
    (h : stat fs path = none) :
    writeReminderNote stat writeFile F path [] fs clk
      = ((osRemove fs path).2, (osRemove fs path).1, clk) := by
  unfold writeReminderNote
  simp [h]

theorem writeReminderNote_nil_stat_err (stat : FileStat) (writeFile : FileWriter)
    (F : Formatter) (path : GoString) (fs : FileSystem) (clk : Clock) (err : Error)
    (h : stat fs path = some err) :
    writeReminderNote stat writeFile F path [] fs clk = (none, fs, clk) := by
  unfold writeReminderNote
  simp [h]

theorem writeReminderNote_cons (stat : FileStat) (writeFile : FileWriter) (F : Formatter)
    (path : GoString) (note : Note) (rest : List Note) (fs : FileSystem) (clk : Clock) :
    writeReminderNote stat writeFile F path (note :: rest) fs clk
      = ((writeFile fs path (reminderContent F (note :: rest) clk).1).2,
         (writeFile fs path (reminderContent F (note :: rest) clk).1).1,
         (reminderContent F (note :: rest) clk).2) := by
  unfold writeReminderNote
  rw [if_neg (by simp)]

/-- C13 (amended): `writeReminderNote` called with an empty list never
calls `os.WriteFile`: it calls `os.Stat` on the path; when `os.Stat`
returns an error nothing changes and the call succeeds; when `os.Stat`
returns no error it calls `os.Remove` and returns its result, so the file
is removed and the call succeeds when `os.Remove` succeeds, and the error
is returned, with the file still there, when it fails.  Called with a
non-empty list it calls `os.WriteFile` on the path with the preamble
followed by one bullet line per note in the order given, and returns its
result. -/
theorem writeReminderNote_spec (stat : FileStat) (writeFile : FileWriter) (F : Formatter)
    (path : GoString) (fs : FileSystem) (clk : Clock) :
    (∀ other : FileWriter, writeReminderNote stat writeFile F path [] fs clk
      = writeReminderNote stat other F path [] fs clk) ∧
    (∀ err, stat fs path = some err →
      writeReminderNote stat writeFile F path [] fs clk = (none, fs, clk)) ∧
    (stat fs path = none →
      writeReminderNote stat writeFile F path [] fs clk
        = ((osRemove fs path).2, (osRemove fs path).1, clk)) ∧
    (stat fs path = none → removable fs path = true →
      (writeReminderNote stat writeFile F path [] fs clk).1 = none ∧
      (writeReminderNote stat writeFile F path [] fs clk).2.1.files path = none ∧
      (∀ q, q ≠ path →
        (writeReminderNote stat writeFile F path [] fs clk).2.1.files q = fs.files q)) ∧
    (stat fs path = none → removable fs path = false →
      writeReminderNote stat writeFile F path [] fs clk = (some (.os path), fs, clk)) ∧
    (∀ notes, notes ≠ [] →
      writeReminderNote stat writeFile F path notes fs clk
        = ((writeFile fs path (reminderPreamble F (clk.readings clk.reads)
              ++ (bulletLines F notes { clk with reads := clk.reads + 1 }).flatten)).2,
           (writeFile fs path (reminderPreamble F (clk.readings clk.reads)
              ++ (bulletLines F notes { clk with reads := clk.reads + 1 }).flatten)).1,
           (reminderContent F notes clk).2) ∧
      (bulletLines F notes { clk with reads := clk.reads + 1 }).length = notes.length) := by
  refine ⟨?_, ?_, ?_, ?_, ?_, ?_⟩
  · intro other
    unfold writeReminderNote
    simp
  · intro err h
    exact writeReminderNote_nil_stat_err stat writeFile F path fs clk err h
  · intro h
    exact writeReminderNote_nil_stat_ok stat writeFile F path fs clk h
  · intro h hrm
    rw [writeReminderNote_nil_stat_ok stat writeFile F path fs clk h,
      osRemove_of_removable fs path hrm]
    refine ⟨rfl, by simp, ?_⟩
    intro q hq
    simp [hq]
  · intro h hrm
    rw [writeReminderNote_nil_stat_ok stat writeFile F path fs clk h,
      osRemove_of_not_removable fs path hrm]
  · intro notes hne
    obtain ⟨note, rest, rfl⟩ : ∃ note rest, notes = note :: rest := by
      cases notes with
      | nil => exact absurd rfl hne
      | cons note rest => exact ⟨note, rest, rfl⟩
    refine ⟨?_, bulletLines_length F _ _⟩
    rw [writeReminderNote_cons, reminderContent_eq]

set_option maxRecDepth 20000 in
/-- Witness of C13: with an empty list the reminder file that is there and
can be removed is removed; with one note the text is handed to
`os.WriteFile`. -/
theorem writeReminderNote_spec_witness :
    sampleStat reminderFS "inbox/_expiry-reminders.md".toList = none ∧
    removable reminderFS "inbox/_expiry-reminders.md".toList = true ∧
    ((writeReminderNote sampleStat sampleWriter sampleFormatter
        "inbox/_expiry-reminders.md".toList [] reminderFS (frozenClock 2)).1 = none ∧
      (writeReminderNote sampleStat sampleWriter sampleFormatter
        "inbox/_expiry-reminders.md".toList [] reminderFS
        (frozenClock 2)).2.1.files "inbox/_expiry-reminders.md".toList = none ∧
      (∀ q, q ≠ "inbox/_expiry-reminders.md".toList →
        (writeReminderNote sampleStat sampleWriter sampleFormatter
          "inbox/_expiry-reminders.md".toList [] reminderFS
          (frozenClock 2)).2.1.files q = reminderFS.files q)) ∧
    (writeReminderNote sampleStat sampleWriter sampleFormatter
        "inbox/_expiry-reminders.md".toList [⟨"inbox/a.md".toList, 10, 0⟩] reminderFS
        (frozenClock 2)).2.1.files "inbox/_expiry-reminders.md".toList
      = some (reminderPreamble sampleFormatter 2
          ++ bulletLine sampleFormatter ⟨"inbox/a.md".toList, 10, 0⟩ 8) :=
  ⟨rfl, rfl,
    (writeReminderNote_spec sampleStat sampleWriter sampleFormatter
      "inbox/_expiry-reminders.md".toList reminderFS (frozenClock 2)).2.2.2.1 rfl rfl,
    by decide⟩

/-- Counterexample to C13 as stated: the reminder file exists, the list is
empty, and the operating system refuses the removal: the call returns the
error and the file is still there; and with one note and an
`os.WriteFile` that is refused the call returns the error and the file
still holds its old text. -/
theorem writeReminderNote_spec_counterexample :
    lockedReminderFS.files "inbox/_expiry-reminders.md".toList = some "old".toList ∧
    sampleStat lockedReminderFS "inbox/_expiry-reminders.md".toList = none ∧
    (writeReminderNote sampleStat sampleWriter sampleFormatter
      "inbox/_expiry-reminders.md".toList [] lockedReminderFS
      (frozenClock 2)).1 = some (.os "inbox/_expiry-reminders.md".toList) ∧
    (writeReminderNote sampleStat sampleWriter sampleFormatter
      "inbox/_expiry-reminders.md".toList [] lockedReminderFS
      (frozenClock 2)).2.1.files "inbox/_expiry-reminders.md".toList = some "old".toList ∧
    (writeReminderNote sampleStat refusingWriter sampleFormatter
      "inbox/_expiry-reminders.md".toList [⟨"inbox/a.md".toList, 10, 0⟩] lockedReminderFS
      (frozenClock 2)).1 = some (.os "inbox/_expiry-reminders.md".toList) ∧
    (writeReminderNote sampleStat refusingWriter sampleFormatter
      "inbox/_expiry-reminders.md".toList [⟨"inbox/a.md".toList, 10, 0⟩] lockedReminderFS
      (frozenClock 2)).2.1.files "inbox/_expiry-reminders.md".toList = some "old".toList := by
  refine ⟨by decide, by decide, by decide, by decide, by decide, by decide⟩

/-! ## The deletion phase of `main` -/

theorem removable_after_remove (fs : FileSystem) (p q : GoString) :
    removable { fs with files := fun x => if x = p then none else fs.files x } q
      = (decide (q ≠ p) && removable fs q) := by
  unfold removable
  by_cases hq : q = p
  · simp [hq]
  · simp [hq]

theorem deleteLoop_dryRun (engineFails : GoString → Bool) :
    ∀ (expired : List Note) (fs : FileSystem) (db : Table) (calls : List GoString),
    deleteLoop true engineFails expired fs db calls = (fs, db, calls) := by
  intro expired
  induction expired with
  | nil => intro fs db calls; rfl
  | cons note rest ih =>
    intro fs db calls
    unfold deleteLoop
    simp only [Bool.not_true, Bool.false_eq_true, if_false]
    exact ih fs db calls

theorem deleteLoop_run (engineFails : GoString → Bool) :
    ∀ (expired : List Note) (fs : FileSystem) (db : Table) (calls : List GoString),
    (deleteLoop false engineFails expired fs db calls).2.1
      = db.filter (fun r =>
          !(decide (r.Path ∈ expired.map Note.Path) && removable fs r.Path
            && !engineFails r.Path)) ∧
    (∀ q, q ∈ (deleteLoop false engineFails expired fs db calls).2.2 ↔
      q ∈ calls ∨ (q ∈ expired.map Note.Path ∧ removable fs q = true)) ∧
    (∀ q, (deleteLoop false engineFails expired fs db calls).1.files q
      = if q ∈ expired.map Note.Path ∧ removable fs q = true then none else fs.files q) ∧
    (deleteLoop false engineFails expired fs db calls).1.locked = fs.locked := by
  intro expired
  induction expired with
  | nil =>
    intro fs db calls
    refine ⟨?_, ?_, ?_, rfl⟩
    · simp [deleteLoop]
    · intro q; simp [deleteLoop]
    · intro q; simp [deleteLoop]
  | cons note rest ih =>
    intro fs db calls
    unfold deleteLoop
    simp only [Bool.not_false, if_true]
    cases hrm : removable fs note.Path with
    | false =>
      rw [osRemove_of_not_removable fs note.Path hrm]
      simp only
      obtain ⟨h1, h2, h3, h4⟩ := ih fs db calls
      refine ⟨?_, ?_, ?_, h4⟩
      · rw [h1]
        apply List.filter_congr
        intro r _
        by_cases hp : r.Path = note.Path
        · simp [hp, hrm]
        · simp [hp]
      · intro q
        rw [h2 q]
        by_cases hp : q = note.Path
        · simp [hp, hrm]
        · simp [hp]
      · intro q
        rw [h3 q]
        by_cases hp : q = note.Path
        · simp [hp, hrm]
        · simp [hp]
    | true =>
      rw [osRemove_of_removable fs note.Path hrm]
      simp only
      cases hef : engineFails note.Path with
      | true =>
        have hdel : DeleteNoteOn engineFails db note.Path
            = (db, some (.engine note.Path)) := by
          unfold DeleteNoteOn
          rw [if_pos hef]
        rw [hdel]
        simp only
        obtain ⟨h1, h2, h3, h4⟩ := ih
          { fs with files := fun q => if q = note.Path then none else fs.files q }
          db (calls ++ [note.Path])
        refine ⟨?_, ?_, ?_, h4⟩
        · rw [h1]
          apply List.filter_congr
          intro r _
          rw [removable_after_remove]
          by_cases hp : r.Path = note.Path
          · simp [hp, hrm, hef]
          · simp [hp]
        · intro q
          rw [h2 q, removable_after_remove]
          by_cases hp : q = note.Path
          · simp [hp, hrm]
          · simp [hp]
        · intro q
          rw [h3 q, removable_after_remove]
          by_cases hp : q = note.Path
          · simp [hp, hrm]
          · simp [hp]
      | false =>
        have hdel : DeleteNoteOn engineFails db note.Path
            = ((DeleteNote db note.Path).1, none) := by
          unfold DeleteNoteOn
          rw [if_neg (by simp [hef])]
          rfl
        rw [hdel]
        simp only
        obtain ⟨h1, h2, h3, h4⟩ := ih
          { fs with files := fun q => if q = note.Path then none else fs.files q }
          (DeleteNote db note.Path).1 (calls ++ [note.Path])
        refine ⟨?_, ?_, ?_, h4⟩
        · rw [h1]
          unfold DeleteNote
          simp only [List.filter_filter]
          apply List.filter_congr
          intro r _
          rw [removable_after_remove]
          by_cases hp : r.Path = note.Path
          · simp [hp, hrm, hef]
          · simp [hp]
        · intro q
          rw [h2 q, removable_after_remove]
          by_cases hp : q = note.Path
          · simp [hp, hrm]
          · simp [hp]
        · intro q
          rw [h3 q, removable_after_remove]
          by_cases hp : q = note.Path
          · simp [hp, hrm]
          · simp [hp]

theorem deletionPhase_eq (dryRun : Bool) (engineFails : GoString → Bool)
    (expired : List Note) (fs : FileSystem) (db : Table) :
    deletionPhase dryRun engineFails expired fs db
      = deleteLoop dryRun engineFails expired fs db [] := by
  unfold deletionPhase
  cases expired with
  | nil => simp [deleteLoop]
  | cons note rest => simp

/-- C12 (amended): in the deletion phase of `main`, in dry-run mode
neither the file system nor the table is changed and `DeleteNote` is never
called; otherwise `DeleteNote` is called for exactly the expired paths
whose file removal succeeded, and the row of an expired note is deleted if
and only if dry-run is off, the removal of its file succeeded and that
`DeleteNote` call succeeded (its failure is only logged: the file is gone
and the row stays); when the removal fails `DeleteNote` is not called for
that path, and its row and its file stay. -/
theorem deletionPhase_spec (dryRun : Bool) (engineFails : GoString → Bool)
    (expired : List Note) (fs : FileSystem) (db : Table) :
    (dryRun = true → deletionPhase dryRun engineFails expired fs db = (fs, db, [])) ∧
    (dryRun = false →
      (deletionPhase dryRun engineFails expired fs db).2.1
        = db.filter (fun r =>
            !(decide (r.Path ∈ expired.map Note.Path) && removable fs r.Path
              && !engineFails r.Path)) ∧
      (∀ q, q ∈ (deletionPhase dryRun engineFails expired fs db).2.2 ↔
        q ∈ expired.map Note.Path ∧ removable fs q = true) ∧
      (∀ q, (deletionPhase dryRun engineFails expired fs db).1.files q
        = if q ∈ expired.map Note.Path ∧ removable fs q = true then none else fs.files q)) ∧
    (∀ r, r ∈ expired → r ∈ db →
      (r ∉ (deletionPhase dryRun engineFails expired fs db).2.1 ↔
        dryRun = false ∧ removable fs r.Path = true ∧ engineFails r.Path = false)) ∧
    (∀ r, r ∈ expired → removable fs r.Path = false →
      r.Path ∉ (deletionPhase dryRun engineFails expired fs db).2.2 ∧
      Table.lookup (deletionPhase dryRun engineFails expired fs db).2.1 r.Path
        = Table.lookup db r.Path ∧
      (deletionPhase dryRun engineFails expired fs db).1.files r.Path = fs.files r.Path) := by
  rw [deletionPhase_eq]
  cases dryRun with
  | true =>
    rw [deleteLoop_dryRun]
    refine ⟨fun _ => rfl, (fun h => by cases h), ?_, ?_⟩
    · intro r _ hdb
      simp [hdb]
    · intro r _ _
      exact ⟨by simp, rfl, rfl⟩
  | false =>
    obtain ⟨h1, h2, h3, _⟩ := deleteLoop_run engineFails expired fs db []
    refine ⟨(fun h => by cases h), fun _ => ⟨h1, ?_, h3⟩, ?_, ?_⟩
    · intro q
      rw [h2 q]
      simp
    · intro r hr hdb
      have hmem : r.Path ∈ expired.map Note.Path := List.mem_map_of_mem _ hr
      rw [h1, List.mem_filter]
      simp [hdb, hmem]
    · intro r _ hrm
      refine ⟨?_, ?_, ?_⟩
      · rw [h2 r.Path]
        simp [hrm]
      · rw [h1]
        unfold Table.lookup
        rw [List.filter_filter]
        apply List.filter_congr
        intro x _
        by_cases hx : x.Path = r.Path
        · simp [hx, hrm]
        · simp [hx]
      · rw [h3 r.Path]
        simp [hrm]

/-- Witness of C12: of the expired notes `a.md` and `b.md` the first can
be removed and the second is locked; with an engine that does not fail the
row of `a.md` goes, the row of `b.md` stays, and in dry-run mode nothing
changes. -/
theorem deletionPhase_spec_witness :
    removable sampleFS "a.md".toList = true ∧ removable sampleFS "b.md".toList = false ∧
    (deletionPhase false engineNeverFails [⟨"a.md".toList, 1, 0⟩, ⟨"b.md".toList, 2, 0⟩]
        sampleFS sampleTable).2.1
      = [⟨"b.md".toList, 2, 0⟩, ⟨"c.md".toList, 10, 0⟩, ⟨"d.md".toList, 11, 0⟩] ∧
    (deletionPhase false engineNeverFails [⟨"a.md".toList, 1, 0⟩, ⟨"b.md".toList, 2, 0⟩]
        sampleFS sampleTable).2.2 = ["a.md".toList] ∧
    ((⟨"a.md".toList, 1, 0⟩ : Note) ∉
        (deletionPhase false engineNeverFails
          [⟨"a.md".toList, 1, 0⟩, ⟨"b.md".toList, 2, 0⟩] sampleFS sampleTable).2.1 ↔
      false = false ∧ removable sampleFS "a.md".toList = true ∧
        engineNeverFails "a.md".toList = false) ∧
    (deletionPhase true engineNeverFails [⟨"a.md".toList, 1, 0⟩, ⟨"b.md".toList, 2, 0⟩]
        sampleFS sampleTable)
      = (sampleFS, sampleTable, []) :=
  ⟨by decide, by decide, by decide, by decide,
    (deletionPhase_spec false engineNeverFails
      [⟨"a.md".toList, 1, 0⟩, ⟨"b.md".toList, 2, 0⟩] sampleFS
      sampleTable).2.2.1 ⟨"a.md".toList, 1, 0⟩ (by decide) (by decide),
    (deletionPhase_spec true engineNeverFails
      [⟨"a.md".toList, 1, 0⟩, ⟨"b.md".toList, 2, 0⟩] sampleFS sampleTable).1 rfl⟩

/-- Counterexample to C12 as stated: dry-run is off and the file of the
expired note `a.md` is removed, but the `DeleteNote` call that follows
fails on the storage engine: `main` only logs the error, so the file is
gone and the row of `a.md` is still in the table. -/
theorem deletionPhase_spec_counterexample :
    removable sampleFS "a.md".toList = true ∧
    (deletionPhase false sampleEngineFails [⟨"a.md".toList, 1, 0⟩] sampleFS
        sampleTable).1.files "a.md".toList = none ∧
    (deletionPhase false sampleEngineFails [⟨"a.md".toList, 1, 0⟩] sampleFS
        sampleTable).2.2 = ["a.md".toList] ∧
    (deletionPhase false sampleEngineFails [⟨"a.md".toList, 1, 0⟩] sampleFS
        sampleTable).2.1 = sampleTable ∧
    ¬ ((⟨"a.md".toList, 1, 0⟩ : Note) ∉
        (deletionPhase false sampleEngineFails [⟨"a.md".toList, 1, 0⟩] sampleFS
          sampleTable).2.1 ↔ false = false ∧ removable sampleFS "a.md".toList = true) := by
  refine ⟨by decide, by decide, by decide, by decide, by decide⟩

/-! ## `ScanInbox` -/

theorem parseNote_of_expiryOf_some (readFile : FileReader) (unmarshal : YamlDecoder)
    (path : GoString) (d : Int) (h : expiryOf readFile unmarshal path = some d) (clk : Clock) :
    parseNote readFile unmarshal path clk
      = (.ok (some ⟨path, clk.readings clk.reads + d, clk.readings (clk.reads + 1)⟩),
          { clk with reads := clk.reads + 1 + 1 }) := by
  unfold expiryOf at h
  cases hr : readFile path with
  | error e => rw [hr] at h; cases h
  | ok content =>
    rw [hr] at h
    simp only at h
    have he := extractFrontmatter_err content
    rcases hx : extractFrontmatter content with ⟨fm, body, e⟩
    rw [hx] at he h
    simp only at he h
    subst he
    cases hy : unmarshal fm with
    | error e => rw [hy] at h; cases h
    | ok data =>
      rw [hy] at h
      simp only at h
      cases hk : data "expiry_date".toList with
      | none => rw [hk] at h; cases h
      | some v =>
        cases v with
        | other => rw [hk] at h; cases h
        | str s =>
          rw [hk] at h
          simp only at h
          cases hd : parseDuration s with
          | error e => rw [hd] at h; cases h
          | ok dur =>
            rw [hd] at h
            simp only [Option.some.injEq] at h
            subst h
            unfold parseNote
            simp only [hr, hx, hy, hk, hd]
            rfl

theorem parseNote_of_expiryOf_none (readFile : FileReader) (unmarshal : YamlDecoder)
    (path : GoString) (h : expiryOf readFile unmarshal path = none) (clk : Clock) :
    parseNote readFile unmarshal path clk = (.ok none, clk) ∨
    ∃ err, parseNote readFile unmarshal path clk = (.error err, clk) := by
  unfold expiryOf at h
  cases hr : readFile path with
  | error e =>
    right
    exact ⟨e, by unfold parseNote; simp only [hr]⟩
  | ok content =>
    rw [hr] at h
    simp only at h
    have he := extractFrontmatter_err content
    rcases hx : extractFrontmatter content with ⟨fm, body, e⟩
    rw [hx] at he h
    simp only at he h
    subst he
    cases hy : unmarshal fm with
    | error e =>
      right
      exact ⟨e, by unfold parseNote; simp only [hr, hx, hy]⟩
    | ok data =>
      rw [hy] at h
      simp only at h
      cases hk : data "expiry_date".toList with
      | none =>
        left
        unfold parseNote
        simp only [hr, hx, hy, hk]
      | some v =>
        cases v with
        | other =>
          left
          unfold parseNote
          simp only [hr, hx, hy, hk]
        | str s =>
          rw [hk] at h
          simp only at h
          cases hd : parseDuration s with
          | ok dur => rw [hd] at h; cases h
          | error e =>
            right
            exact ⟨.invalidExpiry e, by unfold parseNote; simp only [hr, hx, hy, hk, hd]⟩

theorem scanSpec_cons_skip (readFile : FileReader) (unmarshal : YamlDecoder) (join : PathJoin)
    (inboxPath : GoString) (entry : DirEntry) (rest : List DirEntry)
    (h : candidate entry = false ∨
      expiryOf readFile unmarshal (join inboxPath entry.Name) = none) :
    scanSpec readFile unmarshal join inboxPath (entry :: rest)
      = scanSpec readFile unmarshal join inboxPath rest := by
  unfold scanSpec
  rw [List.filterMap_cons]
  rcases h with h | h
  · simp [h]
  · simp [h]

theorem scanSpec_cons_note (readFile : FileReader) (unmarshal : YamlDecoder) (join : PathJoin)
    (inboxPath : GoString) (entry : DirEntry) (rest : List DirEntry) (d : Int)
    (hc : candidate entry = true)
    (h : expiryOf readFile unmarshal (join inboxPath entry.Name) = some d) :
    scanSpec readFile unmarshal join inboxPath (entry :: rest)
      = (join inboxPath entry.Name, d) :: scanSpec readFile unmarshal join inboxPath rest := by
  unfold scanSpec
  rw [List.filterMap_cons]
  simp [hc, h]

theorem scanLoop_eq (readFile : FileReader) (unmarshal : YamlDecoder) (join : PathJoin)
    (inboxPath : GoString) : ∀ (entries : List DirEntry) (notes : List Note) (clk : Clock),
    scanLoop readFile unmarshal join inboxPath entries notes clk
      = (notes ++ (stamp (scanSpec readFile unmarshal join inboxPath entries) clk).1,
          (stamp (scanSpec readFile unmarshal join inboxPath entries) clk).2) := by
  intro entries
  induction entries with
  | nil =>
    intro notes clk
    simp [scanLoop, scanSpec, stamp]
  | cons entry rest ih =>
    intro notes clk
    unfold scanLoop
    cases hc : candidate entry with
    | false =>
      have hcond : (entry.IsDir || !HasSuffix entry.Name ".md".toList) = true := by
        unfold candidate at hc
        generalize HasSuffix entry.Name ".md".toList = b at hc ⊢
        generalize entry.IsDir = a at hc ⊢
        revert hc
        cases a <;> cases b <;> decide
      rw [if_pos hcond, ih, scanSpec_cons_skip _ _ _ _ _ _ (Or.inl hc)]
    | true =>
      have hcond : ¬ (entry.IsDir || !HasSuffix entry.Name ".md".toList) = true := by
        unfold candidate at hc
        generalize HasSuffix entry.Name ".md".toList = b at hc ⊢
        generalize entry.IsDir = a at hc ⊢
        revert hc
        cases a <;> cases b <;> decide
      rw [if_neg hcond]
      simp only
      cases he : expiryOf readFile unmarshal (join inboxPath entry.Name) with
      | none =>
        rw [scanSpec_cons_skip _ _ _ _ _ _ (Or.inr he)]
        rcases parseNote_of_expiryOf_none readFile unmarshal _ he clk with hp | ⟨err, hp⟩
        · rw [hp]; exact ih notes clk
        · rw [hp]; exact ih notes clk
      | some d =>
        rw [scanSpec_cons_note _ _ _ _ _ _ d hc he,
          parseNote_of_expiryOf_some readFile unmarshal _ d he clk]
        simp only
        rw [ih]
        simp [stamp]

theorem stamp_paths : ∀ (l : List (GoString × Int)) (clk : Clock),
    (stamp l clk).1.map Note.Path = l.map Prod.fst := by
  intro l
  induction l with
  | nil => intro clk; rfl
  | cons a rest ih =>
    intro clk
    obtain ⟨p, d⟩ := a
    simp [stamp, ih]

/-- C11: when the directory can be listed, `ScanInbox` succeeds whatever
the files contain; its result is, in enumeration order, one note for each
entry that is not a directory, has a name ending in `.md`, and declares a
duration `parseDuration` accepts, each stamped with its own two readings
of the clock; an entry that is skipped or fails contributes nothing and
removing it from the listing changes neither the result nor the clock. -/
theorem ScanInbox_spec (readDir : DirReader) (readFile : FileReader)
    (unmarshal : YamlDecoder) (join : PathJoin) (inboxPath : GoString) (clk : Clock)
    (entries : List DirEntry) (hdir : readDir inboxPath = .ok entries) :
    ScanInbox readDir readFile unmarshal join inboxPath clk
      = (.ok (stamp (scanSpec readFile unmarshal join inboxPath entries) clk).1,
          (stamp (scanSpec readFile unmarshal join inboxPath entries) clk).2) ∧
    (stamp (scanSpec readFile unmarshal join inboxPath entries) clk).1.map Note.Path
      = (scanSpec readFile unmarshal join inboxPath entries).map Prod.fst ∧
    (∀ pre entry post, entries = pre ++ entry :: post →
      (candidate entry = false ∨
        expiryOf readFile unmarshal (join inboxPath entry.Name) = none) →
      ScanInbox (fun _ => .ok (pre ++ post)) readFile unmarshal join inboxPath clk
        = ScanInbox readDir readFile unmarshal join inboxPath clk) := by
  have hscan : ∀ (rd : DirReader) (es : List DirEntry), rd inboxPath = .ok es →
      ScanInbox rd readFile unmarshal join inboxPath clk
        = (.ok (stamp (scanSpec readFile unmarshal join inboxPath es) clk).1,
            (stamp (scanSpec readFile unmarshal join inboxPath es) clk).2) := by
    intro rd es hrd
    unfold ScanInbox
    simp only [hrd, scanLoop_eq, List.nil_append]
  refine ⟨hscan readDir entries hdir, stamp_paths _ clk, ?_⟩
  intro pre entry post hsplit hskip
  rw [hscan readDir entries hdir, hscan (fun _ => .ok (pre ++ post)) (pre ++ post) rfl]
  have hspec : scanSpec readFile unmarshal join inboxPath entries
      = scanSpec readFile unmarshal join inboxPath (pre ++ post) := by
    rw [hsplit]
    unfold scanSpec
    rw [List.filterMap_append, List.filterMap_append]
    congr 1
    exact scanSpec_cons_skip readFile unmarshal join inboxPath entry post hskip
  rw [hspec]

/-- Witness of C11: a listing with a subfolder, a text file, two notes and
one note that cannot be read. -/
theorem ScanInbox_spec_witness :
    sampleDir "inbox".toList
      = .ok [⟨"sub.md".toList, true⟩, ⟨"x.txt".toList, false⟩, ⟨"a.md".toList, false⟩,
          ⟨"bad.md".toList, false⟩, ⟨"b.md".toList, false⟩] ∧
    (ScanInbox sampleDir sampleReaderBad sampleDecoder sampleJoin "inbox".toList
        (tickingClock 1000)).1
      = .ok [⟨"inbox/a.md".toList, 604800000001000, 1001⟩,
             ⟨"inbox/b.md".toList, 604800000001002, 1003⟩] ∧
    ScanInbox sampleDir sampleReaderBad sampleDecoder sampleJoin "inbox".toList
        (tickingClock 1000)
      = (.ok (stamp (scanSpec sampleReaderBad sampleDecoder sampleJoin "inbox".toList
            [⟨"sub.md".toList, true⟩, ⟨"x.txt".toList, false⟩, ⟨"a.md".toList, false⟩,
              ⟨"bad.md".toList, false⟩, ⟨"b.md".toList, false⟩]) (tickingClock 1000)).1,
          (stamp (scanSpec sampleReaderBad sampleDecoder sampleJoin "inbox".toList
            [⟨"sub.md".toList, true⟩, ⟨"x.txt".toList, false⟩, ⟨"a.md".toList, false⟩,
              ⟨"bad.md".toList, false⟩, ⟨"b.md".toList, false⟩]) (tickingClock 1000)).2) :=
  ⟨rfl, by decide,
    (ScanInbox_spec sampleDir sampleReaderBad sampleDecoder sampleJoin "inbox".toList
      (tickingClock 1000) _ rfl).1⟩

end Knox
